import Mathlib

/-
Verification of the rrweb core: the capture-side MutationBuffer
(src/packages/rrweb/src/record/mutation.ts) and the replay-side
incremental mutation applier (src/packages/rrweb/src/replay/index.ts),
shallowly embedded over an abstract DOM store.

Nodes are abstract references (natural numbers) into a finite store.
Serialized identity-map ids are integers, since the source uses the
sentinels -1 (unserialized) and -2 (IGNORED_NODE).
-/

namespace Rrweb

/-- Node kinds distinguished by the applier (NodeType of rrweb-snapshot,
restricted to the kinds the mutation paths branch on). -/
inductive NTy
  | document
  | element
  | textNode
  | comment
  | fragment
deriving DecidableEq

/-- Serialized node carried inside an AddedNodeMutation
(children omitted: `skipChild` serialization). -/
structure SN where
  id : Nat
  ty : NTy
  tag : String := ""
  attrs : List (String × String) := []
  txt : String := ""
  isShadow : Bool := false
  rootId : Option Nat := none
deriving DecidableEq

/-- AddedNodeMutation `{parentId, nextId, previousId?, node}`.
`none` stands for JS null/undefined; `some (-1)` is the legacy sentinel. -/
structure AddM where
  parentId : Nat
  previousId : Option Int := none
  nextId : Option Int := none
  node : SN
deriving DecidableEq

/-- RemovedNodeMutation `{id, parentId, isShadowRoot?}`. -/
structure RemoveM where
  parentId : Nat
  id : Nat
  isShadow : Bool := false
deriving DecidableEq

/-- TextMutation `{id, value}`. -/
structure TextM where
  id : Nat
  value : String
deriving DecidableEq

/-- One value of the `style` attribute map of an attribute mutation:
`false` removes the property, an array is `[value, priority]`,
otherwise a plain value. -/
inductive StyleV
  | del
  | plain (v : String)
  | prio (v p : String)
deriving DecidableEq

/-- One attribute value in an AttributeMutation: null clears the
attribute, a string sets it, a style map patches inline style. -/
inductive AttrV
  | nullv
  | str (s : String)
  | styleMap (props : List (String × StyleV))
deriving DecidableEq

/-- AttributeMutation `{id, attributes}`. -/
structure AttrM where
  id : Nat
  attributes : List (String × AttrV)
deriving DecidableEq

/-- A mutation delta `{removes, adds, texts, attributes}`. -/
structure MutData where
  removes : List RemoveM := []
  adds : List AddM := []
  texts : List TextM := []
  attributes : List AttrM := []
deriving DecidableEq

/-! ## Association-list utilities shared by both embeddings -/

/-- Lookup in an association list keyed by `Nat`. -/
def alook {α : Type} : List (Nat × α) → Nat → Option α
  | [], _ => none
  | (k, v) :: t, r => if k = r then some v else alook t r

/-- Overwrite-or-insert in an association list keyed by `Nat`. -/
def aset {α : Type} : List (Nat × α) → Nat → α → List (Nat × α)
  | [], k, v => [(k, v)]
  | (k', v') :: t, k, v => if k' = k then (k, v) :: t else (k', v') :: aset t k v

/-- Delete a key from an association list keyed by `Nat`. -/
def adel {α : Type} : List (Nat × α) → Nat → List (Nat × α)
  | [], _ => []
  | (k', v') :: t, k => if k' = k then adel t k else (k', v') :: adel t k

/-- Lookup in an association list keyed by `Int` (identity-map ids). -/
def ilook {α : Type} : List (Int × α) → Int → Option α
  | [], _ => none
  | (k, v) :: t, r => if k = r then some v else ilook t r

/-- Overwrite-or-insert in an association list keyed by `Int`. -/
def iset {α : Type} : List (Int × α) → Int → α → List (Int × α)
  | [], k, v => [(k, v)]
  | (k', v') :: t, k, v => if k' = k then (k, v) :: t else (k', v') :: iset t k v

/-- Delete a key from an association list keyed by `Int`. -/
def idel {α : Type} : List (Int × α) → Int → List (Int × α)
  | [], _ => []
  | (k', v') :: t, k => if k' = k then idel t k else (k', v') :: idel t k

/-- JS-`Set`-like insertion: keeps insertion order, ignores duplicates. -/
def addUniq (l : List Nat) (x : Nat) : List Nat :=
  if x ∈ l then l else l ++ [x]

/-- The element following the first occurrence of `x`. -/
def afterIn : List Nat → Nat → Option Nat
  | [], _ => none
  | [_], _ => none
  | a :: b :: t, x => if a = x then some b else afterIn (b :: t) x

/-- The element preceding the first occurrence of `x`. -/
def beforeIn : List Nat → Nat → Option Nat
  | [], _ => none
  | [_], _ => none
  | a :: b :: t, x => if b = x ∧ a ≠ x then some a else beforeIn (b :: t) x

/-- All elements strictly after the first occurrence of `x`. -/
def suffixAfter : List Nat → Nat → List Nat
  | [], _ => []
  | a :: t, x => if a = x then t else suffixAfter t x

/-- Insert `c` immediately before the first occurrence of `r`. -/
def insertListBefore : List Nat → Nat → Nat → List Nat
  | [], _, c => [c]
  | a :: t, r, c => if a = r then c :: a :: t else a :: insertListBefore t r c

/-- Overwrite-or-insert in an association list keyed by `String`. -/
def sset {α : Type} : List (String × α) → String → α → List (String × α)
  | [], k, v => [(k, v)]
  | (k', v') :: t, k, v => if k' = k then (k, v) :: t else (k', v') :: sset t k v

namespace Replay

/-- A live node of the replayed document.  `sn` is the serialized id the
node carries (`__sn_atlas`), absent on virtual-parent fragments.
`sheetRules` are the dynamically inserted stylesheet rules of a style
element (lost by the host while the element is detached — the reason the
style journal exists); `scroll` is likewise lost on unmount. -/
structure RNode where
  ty : NTy := NTy.element
  tag : String := ""
  sn : Option Nat := none
  attrs : List (String × String) := []
  styleProps : List (String × String × String) := []
  children : List Nat := []
  scroll : Nat × Nat := (0, 0)
  sheetRules : List String := []
  textVal : String := ""
  valueProp : Option String := none
  isFragment : Bool := false
  contentRoot : Option Nat := none
deriving DecidableEq

/-- The node store: abstract references to live nodes. -/
abbrev Store := List (Nat × RNode)

def getN (s : Store) (r : Nat) : Option RNode := alook s r

def setN (s : Store) (r : Nat) (n : RNode) : Store := aset s r n

def updChildren (s : Store) (r : Nat) (f : List Nat → List Nat) : Store :=
  match getN s r with
  | none => s
  | some n => setN s r { n with children := f n.children }

/-- `root.contains(target)` (inclusive descendant), fuel-bounded. -/
def containsFrom (s : Store) : Nat → Nat → Nat → Bool
  | 0, _, _ => false
  | fuel + 1, root, target =>
    root = target ||
      (match getN s root with
       | none => false
       | some n => n.children.any fun c => containsFrom s fuel c target)

/-- `parentNode` of a reference, derived from the children lists. -/
def parentOf (s : Store) (r : Nat) : Option Nat :=
  (s.find? fun p => p.2.children.contains r).map fun p => p.1

/-- `nextSibling` of a reference. -/
def nextSiblingOf (s : Store) (r : Nat) : Option Nat :=
  match parentOf s r with
  | none => none
  | some p =>
    match getN s p with
    | none => none
    | some pn => afterIn pn.children r

/-- isIframeINode: a serialized element with tagName iframe. -/
def isIframeNode (n : RNode) : Bool :=
  n.sn.isSome && n.ty == NTy.element && n.tag == "iframe"

/-- `parent.getElementsByTagName('iframe').length > 0`: some strict
descendant is an iframe element. -/
def hasIframeDesc (s : Store) : Nat → Nat → Bool
  | 0, _ => false
  | fuel + 1, r =>
    match getN s r with
    | none => false
    | some n =>
      n.children.any fun c =>
        (match getN s c with
         | some cn => cn.tag == "iframe"
         | none => false) || hasIframeDesc s fuel c

/-- Persistent applier state: store, identity map, virtual-parent map,
scroll snapshots, style-rule journal, legacy pending map, new-document
queue. -/
structure RState where
  store : Store := []
  mir : List (Nat × Nat) := []
  fragMap : List (Nat × Nat) := []
  elemState : List (Nat × (Nat × Nat)) := []
  vRules : List (Nat × List String) := []
  legacyRetry : List (Nat × (Nat × AddM)) := []
  newDocQueue : List AddM := []
  freshRef : Nat := 0
  docRef : Nat := 0
deriving DecidableEq

/-- Events of the removes pass (applied detach, node-not-found
diagnostic, host-rejected detach logged and swallowed). -/
inductive RemEv
  | applied (id : Nat)
  | notFound (id : Nat)
  | removeFailedWarn
deriving DecidableEq

/-- Events of the adds pass (applied insert, dropped resolve tree,
resolve-loop timeout). -/
inductive AddEv
  | applied (id : Nat)
  | dropTree
  | timeoutWarn
deriving DecidableEq

/-- Events of the texts pass. -/
inductive TextEv
  | applied (id : Nat)
  | notFound (id : Nat)
deriving DecidableEq

/-- Events of the attributes pass. -/
inductive AttrEv
  | applied (id : Nat)
  | notFound (id : Nat)
  | setAttrWarn
deriving DecidableEq

/-- A replay event: one entry of the application trace. -/
inductive REv
  | rem (e : RemEv)
  | add (e : AddEv)
  | txt (e : TextEv)
  | attr (e : AttrEv)
deriving DecidableEq

/-- The phase of an applied delta entry (removes 0 < adds 1 < texts 2 <
attributes 3); diagnostics carry no phase. -/
def phaseOf : REv → Option Nat
  | .rem (RemEv.applied _) => some 0
  | .add (AddEv.applied _) => some 1
  | .txt (TextEv.applied _) => some 2
  | .attr (AttrEv.applied _) => some 3
  | _ => none

/-- Host-level exceptions: DOMException versus anything else. -/
inductive HostErr
  | domEx
  | other (code : Nat)
deriving DecidableEq

/-- Fault-injection environment for host operations. -/
structure HostEnv where
  removeChildErr : Nat → Nat → Option HostErr := fun _ _ => none
  setAttrErr : Nat → String → Option HostErr := fun _ _ => none

/-- Modelled from the spec (§4.3 Identity Map, implemented outside
src/): `getId(node)` returns the stable id the node carries, `-1` when
it has none. -/
def getIdOf (s : Store) (r : Nat) : Int :=
  match getN s r with
  | some n => match n.sn with
    | some i => (i : Int)
    | none => -1
  | none => -1

/-- Modelled from the spec (§4.3, implemented outside src/):
`removeNodeFromMap` drops the node's id→node mapping and cascades to
its children. -/
def mirRemoveRec (s : Store) : Nat → List (Nat × Nat) → Nat → List (Nat × Nat)
  | 0, mir, _ => mir
  | fuel + 1, mir, r =>
    let mir' := match getN s r with
      | some n => match n.sn with
        | some i => adel mir i
        | none => mir
      | none => mir
    match getN s r with
    | some n => n.children.foldl (fun m c => mirRemoveRec s fuel m c) mir'
    | none => mir'

/-- Detach `c` from `p`'s child list (the subtree stays in the store). -/
def detach (s : Store) (p c : Nat) : Store :=
  updChildren s p fun l => l.erase c

/-- `parent.removeChild(target)`: rejected with a DOMException when the
target is not a child of the parent; the environment may inject further
host failures. -/
def removeChildRes (env : HostEnv) (s : Store) (p c : Nat) : Except HostErr Store :=
  match env.removeChildErr p c with
  | some e => .error e
  | none =>
    match getN s p with
    | none => .error HostErr.domEx
    | some pn =>
      if c ∈ pn.children then .ok (detach s p c) else .error HostErr.domEx

/-- One entry of the removes pass of applyMutation
(replay/index.ts:1463-1520). -/
def applyRemoveM (env : HostEnv) (st : RState) (d : MutData) (m : RemoveM) :
    RState × List RemEv × Option HostErr :=
  match alook st.mir m.id with
  | none =>
    if d.removes.any fun r => r.id == m.parentId then (st, [], none)
    else (st, [RemEv.notFound m.id], none)
  | some target0 =>
    let st1 := { st with vRules := adel st.vRules target0 }
    match alook st1.mir m.parentId with
    | none => (st1, [RemEv.notFound m.parentId], none)
    | some parent0 =>
      -- mutation.isShadow redirect: shadow roots are not modelled
      -- (hasShadowRoot is uniformly false in this embedding)
      let st2 := { st1 with mir := mirRemoveRec st1.store st1.store.length st1.mir target0 }
      let realParent : Option Nat :=
        match getN st2.store parent0 with
        | some pn => if pn.sn.isSome then alook st2.fragMap parent0 else none
        | none => none
      let c1 : Bool :=
        match realParent with
        | some rp => containsFrom st2.store st2.store.length rp target0
        | none => false
      let pts : Nat × Nat × RState :=
        if c1 then (realParent.getD parent0, target0, st2)
        else
          match alook st2.fragMap target0 with
          | some rt => (parent0, rt, { st2 with fragMap := adel st2.fragMap target0 })
          | none => (parent0, target0, st2)
      match removeChildRes env pts.2.2.store pts.1 pts.2.1 with
      | .error HostErr.domEx => (pts.2.2, [RemEv.removeFailedWarn], none)
      | .error e => (pts.2.2, [], some e)
      | .ok s' => ({ pts.2.2 with store := s' }, [RemEv.applied m.id], none)

/-- The removes pass: `d.removes.forEach(...)`; an uncaught host
exception aborts the pass (and the whole applyMutation). -/
def applyRemoves (env : HostEnv) (d : MutData) :
    List RemoveM → RState → RState × List RemEv × Option HostErr
  | [], st => (st, [], none)
  | m :: ms, st =>
    match applyRemoveM env st d m with
    | (st', evs, some e) => (st', evs, some e)
    | (st', evs, none) =>
      match applyRemoves env d ms st' with
      | (st'', evs', err) => (st'', evs ++ evs', err)

/-- `parent.appendChild(c)`: appending a DocumentFragment moves the
fragment's children; otherwise the node is detached from its current
parent first. -/
def appendChildOp (s : Store) (p c : Nat) : Store :=
  match getN s c with
  | some cn =>
    if cn.isFragment then
      let s' := updChildren s p fun l => l ++ cn.children
      setN s' c { cn with children := [] }
    else
      let s' := match parentOf s c with
        | some q => detach s q c
        | none => s
      updChildren s' p fun l => l ++ [c]
  | none => s

/-- `parent.insertBefore(c, ref)`: `ref = null` appends; a ref that is
not a child of the parent makes the host throw (NotFoundError, a
DOMException). -/
def insertBeforeOp (s : Store) (p c : Nat) (ref : Option Nat) : Except HostErr Store :=
  match ref with
  | none => .ok (appendChildOp s p c)
  | some r =>
    match getN s p with
    | none => .error HostErr.domEx
    | some pn =>
      if r ∈ pn.children then
        let s' := match parentOf s c with
          | some q => detach s q c
          | none => s
        .ok (updChildren s' p fun l => insertListBefore l r c)
      else .error HostErr.domEx

/-- Modelled from the spec (§6 Serializer; rrweb-snapshot is outside
src/): buildNodeWithSN constructs a live node from its serialized form
(children arrive as separate adds) and registers it in the identity
map. -/
def buildSN (st : RState) (sn : SN) : RState × Nat :=
  let r := st.freshRef
  let node : RNode :=
    { ty := sn.ty, tag := sn.tag, sn := some sn.id, attrs := sn.attrs, textVal := sn.txt }
  ({ st with store := setN st.store r node, mir := aset st.mir sn.id r, freshRef := r + 1 }, r)

/-- storeState (replay/index.ts:2062-2083): recursively snapshot the
scroll positions (when non-zero) and — via storeCSSRules, modelled from
the spec since virtual-styles.ts is outside src/ — the dynamically
inserted sheet rules of a subtree about to be unmounted. -/
def storeStateRec : Nat → RState → Nat → RState
  | 0, st, _ => st
  | fuel + 1, st, p =>
    match getN st.store p with
    | none => st
    | some pn =>
      if pn.ty == NTy.element then
        let st1 := if pn.scroll ≠ (0, 0) then
            { st with elemState := aset st.elemState p pn.scroll } else st
        let st2 := if pn.tag == "style" && !pn.sheetRules.isEmpty then
            { st1 with vRules := aset st1.vRules p pn.sheetRules } else st1
        pn.children.foldl (fun s c => storeStateRec fuel s c) st2
      else st

/-- Host behavior when a subtree is unmounted into a detached fragment:
scroll state and dynamically inserted sheet rules are lost — this is
exactly what storeState snapshots beforehand. -/
def wipeDetachedRec : Nat → Store → Nat → Store
  | 0, s, _ => s
  | fuel + 1, s, r =>
    match getN s r with
    | none => s
    | some n =>
      let s1 := setN s r { n with scroll := (0, 0), sheetRules := [] }
      n.children.foldl (fun s' c => wipeDetachedRec fuel s' c) s1

/-- JS truthiness of an optional id. -/
def truthyOid : Option Int → Bool
  | some i => i != 0
  | none => false

/-- `if (id) node = mirror.getNode(id)`: looked up only when truthy;
negative sentinel ids are never registered. -/
def lookIdNode (mir : List (Nat × Nat)) : Option Int → Option Nat
  | some i => if i != 0 then (if i < 0 then none else alook mir i.toNat) else none
  | none => none

/-- The mutable context of one adds pass: state, requeue list, the local
legacy missing-node map, the style-with-sibling-iframe exclusion set,
the trace and the pending uncaught exception. -/
structure AddCtx where
  st : RState
  queue : List AddM := []
  legacy : List (Nat × (Nat × AddM)) := []
  notVirtStyles : List Nat := []
  evs : List AddEv := []
  err : Option HostErr := none

def ctxInsertBefore (ctx : AddCtx) (p c : Nat) (ref : Option Nat) : AddCtx :=
  match insertBeforeOp ctx.st.store p c ref with
  | .ok s => { ctx with st := { ctx.st with store := s } }
  | .error e => { ctx with err := some e }

/-- Lookup of a legacy-map entry under a truthy id. -/
def legacyLook (l : List (Nat × (Nat × AddM))) : Option Int → Option (Nat × AddM)
  | some i => if i != 0 && !(i < 0 : Bool) then alook l i.toNat else none
  | none => none

/-- legacy_resolveMissingNode (replay/index.ts:1920-1947). -/
def legacyResolve : Nat → AddCtx → Nat → Nat → AddM → AddCtx
  | 0, ctx, _, _, _ => ctx
  | fuel + 1, ctx, parent, target, tm =>
    let ctx1 :=
      match legacyLook ctx.legacy tm.previousId with
      | some (node, mutation) =>
        let c := ctxInsertBefore ctx parent node (some target)
        if c.err.isSome then c else
        let c :=
          { c with legacy := adel c.legacy mutation.node.id,
                   st := { c.st with legacyRetry := adel c.st.legacyRetry mutation.node.id } }
        if truthyOid mutation.previousId || truthyOid mutation.nextId then
          legacyResolve fuel c parent node mutation
        else c
      | none => ctx
    if ctx1.err.isSome then ctx1 else
    match legacyLook ctx1.legacy tm.nextId with
    | some (node, mutation) =>
      let ns := nextSiblingOf ctx1.st.store target
      let c := ctxInsertBefore ctx1 parent node ns
      if c.err.isSome then c else
      let c :=
        { c with legacy := adel c.legacy mutation.node.id,
                 st := { c.st with legacyRetry := adel c.st.legacyRetry mutation.node.id } }
      if truthyOid mutation.previousId || truthyOid mutation.nextId then
        legacyResolve fuel c parent node mutation
      else c
    | none => ctx1

/-- The tail of appendNode after parent/sibling resolution
(replay/index.ts:1629-1725): build the node, divert legacy-sentinel
entries, clear stray text children of a textarea, insert before the
resolved sibling or append (clearing a stale document first), link
queued new-document records of iframes, resolve waiting legacy
entries. -/
def appendNodeCore (_env : HostEnv) (ctx' : AddCtx) (parent1 : Nat)
    (previous next : Option Nat) (m : AddM) (targetDoc : Nat) : AddCtx :=
  let pIsIframe1 :=
    match getN ctx'.st.store parent1 with
    | some pn => isIframeNode pn
    | none => false
  if pIsIframe1 then
    -- attachDocumentToIframe: the new document becomes the iframe's content root
    let bs := buildSN ctx'.st m.node
    let st2 :=
      match getN bs.1.store parent1 with
      | some pn => { bs.1 with store := setN bs.1.store parent1 { pn with contentRoot := some bs.2 } }
      | none => bs.1
    { ctx' with st := st2, evs := ctx'.evs ++ [AddEv.applied m.node.id] }
  else
  let bs := buildSN ctx'.st m.node
  let target := bs.2
  let ctx1 := { ctx' with st := bs.1 }
  if m.previousId == some (-1) || m.nextId == some (-1) then
    { ctx1 with legacy := aset ctx1.legacy m.node.id (target, m) }
  else
  let ctx2 :=
    match getN ctx1.st.store parent1 with
    | some pn =>
      if pn.sn.isSome && pn.ty == NTy.element && pn.tag == "textarea"
          && m.node.ty == NTy.textNode then
        let textKids := pn.children.filter fun c =>
          match getN ctx1.st.store c with
          | some cn => cn.ty == NTy.textNode
          | none => false
        { ctx1 with st := { ctx1.st with
            store := textKids.foldl (fun s c => detach s parent1 c) ctx1.st.store } }
      else ctx1
    | none => ctx1
  let prevNs : Option Nat :=
    match previous with
    | some prev =>
      match nextSiblingOf ctx2.st.store prev with
      | some ns => if (parentOf ctx2.st.store ns).isSome then some ns else none
      | none => none
    | none => none
  let insRes : Except HostErr Store :=
    match prevNs with
    | some ns => insertBeforeOp ctx2.st.store parent1 target (some ns)
    | none =>
      match next with
      | some nx =>
        if (parentOf ctx2.st.store nx).isSome then
          if containsFrom ctx2.st.store ctx2.st.store.length parent1 nx then
            insertBeforeOp ctx2.st.store parent1 target (some nx)
          else insertBeforeOp ctx2.st.store parent1 target none
        else
          let s1 := if parent1 = targetDoc then updChildren ctx2.st.store targetDoc fun _ => []
            else ctx2.st.store
          insertBeforeOp s1 parent1 target none
      | none =>
        let s1 := if parent1 = targetDoc then updChildren ctx2.st.store targetDoc fun _ => []
          else ctx2.st.store
        insertBeforeOp s1 parent1 target none
  match insRes with
  | .error e => { ctx2 with err := some e }
  | .ok s' =>
    let ctx3 :=
      { ctx2 with st := { ctx2.st with store := s' },
                  evs := ctx2.evs ++ [AddEv.applied m.node.id] }
    let ctx4 :=
      match getN ctx3.st.store target with
      | some tn =>
        if isIframeNode tn then
          match ctx3.st.newDocQueue.find? fun q => q.parentId == m.node.id with
          | some q =>
            let bq := buildSN ctx3.st q.node
            let st3 :=
              match getN bq.1.store target with
              | some tn2 =>
                { bq.1 with store := setN bq.1.store target { tn2 with contentRoot := some bq.2 } }
              | none => bq.1
            { ctx3 with st := { st3 with newDocQueue := st3.newDocQueue.filter fun x => x != q } }
          | none => ctx3
        else ctx3
      | none => ctx3
    if truthyOid m.previousId || truthyOid m.nextId then
      legacyResolve (ctx4.legacy.length + 1) ctx4 parent1 target m
    else ctx4

/-- appendNode (replay/index.ts:1548-1726): resolve the parent (requeue,
or queue new documents, when unresolved), install a virtual parent when
requested and admissible, resolve the sibling hints, then hand over to
`appendNodeCore`. -/
def appendNode (env : HostEnv) (uv : Bool) (ctx0 : AddCtx) (m : AddM) : AddCtx :=
  if ctx0.err.isSome then ctx0 else
  match alook ctx0.st.mir m.parentId with
  | none =>
    if m.node.ty == NTy.document then
      { ctx0 with st := { ctx0.st with newDocQueue := ctx0.st.newDocQueue ++ [m] } }
    else { ctx0 with queue := ctx0.queue ++ [m] }
  | some parent0 =>
    let stA := ctx0.st
    let parentInDocument := containsFrom stA.store stA.store.length stA.docRef parent0
    let parentHasIframeChild := hasIframeDesc stA.store stA.store.length parent0
    let pIsIframe :=
      match getN stA.store parent0 with
      | some pn => isIframeNode pn
      | none => false
    let pc : Nat × AddCtx :=
      if uv then
        if parentInDocument && !parentHasIframeChild && !pIsIframe
            && !(ctx0.notVirtStyles.contains m.parentId) then
          let frag := stA.freshRef
          let fragNode : RNode := { ty := NTy.fragment, isFragment := true }
          let st1 :=
            { stA with store := setN stA.store frag fragNode,
                       freshRef := frag + 1,
                       mir := aset stA.mir m.parentId frag,
                       fragMap := aset stA.fragMap frag parent0 }
          let st2 := storeStateRec st1.store.length st1 parent0
          let kids :=
            match getN st2.store parent0 with
            | some pn => pn.children
            | none => []
          let s3 := updChildren (updChildren st2.store parent0 fun _ => []) frag fun l => l ++ kids
          let s4 := kids.foldl (fun s c => wipeDetachedRec s.length s c) s3
          (frag, { ctx0 with st := { st2 with store := s4 } })
        else if parentHasIframeChild && m.node.ty == NTy.element && m.node.tag == "style" then
          (parent0, { ctx0 with notVirtStyles := ctx0.notVirtStyles ++ [m.node.id] })
        else (parent0, ctx0)
      else (parent0, ctx0)
    let parent1 := pc.1
    let ctx1 := pc.2
    -- mutation.node.isShadow: no parent carries a shadow root in this embedding
    let previous := lookIdNode ctx1.st.mir m.previousId
    let next := lookIdNode ctx1.st.mir m.nextId
    let nextMissing : Bool :=
      match m.nextId with
      | none => false
      | some i => i != -1 && next.isNone
    if nextMissing then { ctx1 with queue := ctx1.queue ++ [m] }
    else
      match m.node.rootId with
      | some rid =>
        match alook ctx1.st.mir rid with
        | some td => appendNodeCore env ctx1 parent1 previous next m td
        | none => ctx1
      | none => appendNodeCore env ctx1 parent1 previous next m ctx1.st.docRef

/-- Modelled from the spec (§3 pending-resolve forest;
queueToResolveTrees lives in utils outside src/): the children of a
queued add, by declared parent relationship. -/
def queueChildrenOf (q : List AddM) (id : Nat) : List AddM :=
  q.filter fun mm => mm.parentId == id

/-- Modelled from the spec: the roots of the pending-resolve forest,
requeued adds whose declared parent is no queued add's node. -/
def queueRoots (q : List AddM) : List AddM :=
  q.filter fun mm => !(q.any fun mm' => mm'.node.id == mm.parentId)

/-- Modelled from the spec: iterateResolveTree visits a resolve tree
parent-first. -/
def iterTree (q : List AddM) : Nat → AddM → List AddM
  | 0, mm => [mm]
  | fuel + 1, mm => mm :: (queueChildrenOf q mm.node.id).flatMap fun c => iterTree q fuel c

/-- The resolve-tree retry loop (replay/index.ts:1732-1757).  The
~500 ms wall-clock circuit breaker is abstracted as fuel: on exhaustion
the loop warns and discards what is left. -/
def addQueueLoop (env : HostEnv) (uv : Bool) : Nat → AddCtx → AddCtx
  | 0, ctx =>
    if ctx.queue.isEmpty || ctx.err.isSome then ctx
    else { ctx with evs := ctx.evs ++ [AddEv.timeoutWarn], queue := [] }
  | fuel + 1, ctx =>
    if ctx.queue.isEmpty || ctx.err.isSome then ctx
    else
      let q := ctx.queue
      let ctx1 := { ctx with queue := [] }
      let ctx2 := (queueRoots q).foldl
        (fun c root =>
          if c.err.isSome then c
          else if (alook c.st.mir root.parentId).isNone then
            { c with evs := c.evs ++ [AddEv.dropTree] }
          else (iterTree q q.length root).foldl (fun c' mm => appendNode env uv c' mm) c)
        ctx1
      addQueueLoop env uv fuel ctx2

/-- The adds pass: `d.adds.forEach(appendNode)`, then the resolve-tree
loop; surviving legacy-sentinel entries merge back into the retry
map — unless an exception aborted the pass first. -/
def applyAdds (env : HostEnv) (uv : Bool) (st : RState) (d : MutData) (fuel : Nat) :
    RState × List AddEv × Option HostErr :=
  let ctx0 : AddCtx := { st := st, legacy := st.legacyRetry }
  let ctx1 := d.adds.foldl (fun c mm => appendNode env uv c mm) ctx0
  let ctx2 := addQueueLoop env uv fuel ctx1
  match ctx2.err with
  | some e => (ctx2.st, ctx2.evs, some e)
  | none =>
    let st' :=
      if ctx2.legacy.isEmpty then ctx2.st
      else
        { ctx2.st with
          legacyRetry := ctx2.legacy.foldl (fun r kv => aset r kv.1 kv.2) ctx2.st.legacyRetry }
    (st', ctx2.evs, none)

/-- One text mutation (replay/index.ts:1763-1779): a missing target is
benign when the same delta removed that id; content writes are
redirected to the real backing parent when the target is virtualized. -/
def applyTextM (st : RState) (d : MutData) (m : TextM) : RState × List TextEv :=
  match alook st.mir m.id with
  | none =>
    if d.removes.any fun r => r.id == m.id then (st, [])
    else (st, [TextEv.notFound m.id])
  | some t0 =>
    let target := (alook st.fragMap t0).getD t0
    match getN st.store target with
    | some tn =>
      -- target.textContent = value (on an element this drops the children)
      let tn' := if tn.ty == NTy.textNode then { tn with textVal := m.value }
        else { tn with children := [], textVal := m.value }
      ({ st with store := setN st.store target tn' }, [TextEv.applied m.id])
    | none => (st, [TextEv.applied m.id])

def applyTexts (d : MutData) : List TextM → RState → RState × List TextEv
  | [], st => (st, [])
  | m :: ms, st =>
    match applyTextM st d m with
    | (st', evs) =>
      match applyTexts d ms st' with
      | (st'', evs') => (st'', evs ++ evs')

/-- One entry of an attribute map (replay/index.ts:1792-1850): null
clears the attribute, a string sets it (host rejection is caught and
logged), a style map patches inline style properties.  The dialog and
canvas side channels do not touch the modelled tree state. -/
def applyAttrEntry (env : HostEnv) (target : Nat) (st : RState) (kv : String × AttrV) :
    RState × List AttrEv :=
  match kv.2 with
  | AttrV.nullv =>
    match getN st.store target with
    | some tn =>
      let tn' := { tn with attrs := tn.attrs.filter fun a => !(a.1 == kv.1) }
      ({ st with store := setN st.store target tn' }, [])
    | none => (st, [])
  | AttrV.str v =>
    match env.setAttrErr target kv.1 with
    | some _ => (st, [AttrEv.setAttrWarn])
    | none =>
      match getN st.store target with
      | some tn =>
        ({ st with store := setN st.store target { tn with attrs := sset tn.attrs kv.1 v } }, [])
      | none => (st, [])
  | AttrV.styleMap props =>
    match getN st.store target with
    | some tn =>
      let sp := props.foldl
        (fun acc (p : String × StyleV) =>
          match p.2 with
          | StyleV.del => acc.filter fun q => !(q.1 == p.1)
          | StyleV.plain v => sset acc p.1 (v, "")
          | StyleV.prio v pr => sset acc p.1 (v, pr))
        tn.styleProps
      ({ st with store := setN st.store target { tn with styleProps := sp } }, [])
    | none => (st, [])

/-- One attribute mutation (replay/index.ts:1780-1851). -/
def applyAttrM (env : HostEnv) (st : RState) (d : MutData) (m : AttrM) :
    RState × List AttrEv :=
  match alook st.mir m.id with
  | none =>
    if d.removes.any fun r => r.id == m.id then (st, [])
    else (st, [AttrEv.notFound m.id])
  | some t0 =>
    let target := (alook st.fragMap t0).getD t0
    let r := m.attributes.foldl
      (fun (acc : RState × List AttrEv) kv =>
        let r1 := applyAttrEntry env target acc.1 kv
        (r1.1, acc.2 ++ r1.2))
      (st, [])
    (r.1, r.2 ++ [AttrEv.applied m.id])

def applyAttrs (env : HostEnv) (d : MutData) : List AttrM → RState → RState × List AttrEv
  | [], st => (st, [])
  | m :: ms, st =>
    match applyAttrM env st d m with
    | (st', evs) =>
      match applyAttrs env d ms st' with
      | (st'', evs') => (st'', evs ++ evs')

/-- applyMutation (replay/index.ts:1462-1852): removes, then adds with
the resolve-tree pass, then texts, then attributes; the trace records
the order of application, and an uncaught host exception aborts the
remaining passes and is returned to the caller. -/
def applyMutation (env : HostEnv) (fuel : Nat) (st : RState) (d : MutData) (uv : Bool) :
    RState × List REv × Option HostErr :=
  match applyRemoves env d d.removes st with
  | (st1, evR, some e) => (st1, evR.map REv.rem, some e)
  | (st1, evR, none) =>
    match applyAdds env uv st1 d fuel with
    | (st2, evA, some e) => (st2, evR.map REv.rem ++ evA.map REv.add, some e)
    | (st2, evA, none) =>
      match applyTexts d d.texts st2 with
      | (st3, evT) =>
        match applyAttrs env d d.attributes st3 with
        | (st4, evAt) =>
          (st4, evR.map REv.rem ++ evA.map REv.add ++ evT.map REv.txt ++ evAt.map REv.attr,
            none)

/-- Events visible to applyIncremental's Mutation case. -/
inductive IncEv
  | fromMutation (e : REv)
  | exceptionWarn
deriving DecidableEq

/-- applyIncremental, IncrementalSource.Mutation case
(replay/index.ts:1038-1051): any exception escaping applyMutation is
caught here and logged; host mutations applied before the exception
persist. -/
def applyIncrementalMutation (env : HostEnv) (fuel : Nat) (st : RState) (d : MutData)
    (isSync : Bool) : RState × List IncEv :=
  match applyMutation env fuel st d isSync with
  | (st', evs, some _) => (st', evs.map IncEv.fromMutation ++ [IncEv.exceptionWarn])
  | (st', evs, none) => (st', evs.map IncEv.fromMutation)

/-- restoreState (replay/index.ts:2089-2106): restore snapshotted
scroll positions recursively after remounting. -/
def restoreStateRec : Nat → RState → Nat → RState
  | 0, st, _ => st
  | fuel + 1, st, p =>
    match getN st.store p with
    | none => st
    | some pn =>
      if pn.ty == NTy.element then
        let st1 :=
          match alook st.elemState p with
          | some sc =>
            { st with store := setN st.store p { pn with scroll := sc },
                      elemState := adel st.elemState p }
          | none => st
        pn.children.foldl (fun s c => restoreStateRec fuel s c) st1
      else st

/-- The concatenated character data of a subtree (textContent). -/
def textContentRec (s : Store) : Nat → Nat → String
  | 0, _ => ""
  | fuel + 1, r =>
    match getN s r with
    | none => ""
    | some n =>
      n.children.foldl (fun acc c => acc ++ textContentRec s fuel c) n.textVal

/-- restoreNodeSheet (replay/index.ts:2108-2121), with
applyVirtualStyleRulesToNode modelled from the spec (virtual-styles.ts
is outside src/): replay the journaled rules onto the now-live sheet. -/
def restoreNodeSheet (st : RState) (r : Nat) : RState :=
  match getN st.store r with
  | some n =>
    if n.tag == "style" then
      match alook st.vRules r with
      | some rules => { st with store := setN st.store r { n with sheetRules := rules } }
      | none => st
    else st
  | none => st

/-- restoreRealParent (replay/index.ts:2039-2055): point the identity
map back at the real parent, restore a textarea default value, reattach
the fragment (its children move into the parent), restore state. -/
def restoreRealParent (st : RState) (frag parent : Nat) : RState :=
  let st1 :=
    match getN st.store parent with
    | some pn =>
      match pn.sn with
      | some pid => { st with mir := aset st.mir pid parent }
      | none => st
    | none => st
  let st2 :=
    match getN st1.store parent with
    | some pn =>
      if pn.ty == NTy.element && pn.tag == "textarea"
          && !(textContentRec st1.store st1.store.length frag == "") then
        let pn' := { pn with valueProp := some (textContentRec st1.store st1.store.length frag) }
        { st1 with store := setN st1.store parent pn' }
      else st1
    | none => st1
  let st3 := { st2 with store := appendChildOp st2.store parent frag }
  restoreStateRec st3.store.length st3 parent

/-- The Flush boundary handler (replay/index.ts:211-245): reattach every
still-virtualized fragment, replay the journaled style rules, clear all
side caches.  The treeIndex side maps (scroll/input/dialog/canvas) are
empty for purely structural edit sequences. -/
def flushRun (st : RState) : RState :=
  let st1 := st.fragMap.foldl (fun s fp => restoreRealParent s fp.1 fp.2) st
  let st2 := st1.vRules.foldl (fun s kr => restoreNodeSheet s kr.1) st1
  { st2 with fragMap := [], elemState := [], vRules := [] }

/-- The Replayer constructor guard (replay/index.ts:160-166). -/
def replayerCtorGuard (liveMode : Bool) (eventCount : Nat) : Except String Unit :=
  if liveMode = false ∧ eventCount < 2 then
    Except.error "Replayer need at least 2 events."
  else Except.ok ()

/-- The tags of the document's children, an allocator-independent
observation of the tree for comparing two runs. -/
def rootChildTags (st : RState) : List String :=
  match getN st.store st.docRef with
  | some n =>
    n.children.map fun c =>
      match getN st.store c with
      | some cn => cn.tag
      | none => ""
  | none => []

end Replay

namespace Capture

/-- A capture-side DOM node: the static structure and policy flags of
the final DOM state a mutation batch is processed against (the
MutationObserver callback only reads the DOM).  `blocked` models
membership in the block class; identity (`__sn_atlas`) is dynamic
state, not stored here. -/
structure CNode where
  children : List Nat := []
  parent : Option Nat := none
  blocked : Bool := false
  isShadowRootNode : Bool := false
  host : Option Nat := none
deriving DecidableEq

/-- The capture-side document: a node store plus the document root. -/
structure CDom where
  store : List (Nat × CNode) := []
  docRef : Nat := 0
deriving DecidableEq

def getC (dm : CDom) (r : Nat) : Option CNode := alook dm.store r

/-- One entry of the removes buffer (ids are mirror ids, hence Int). -/
structure CRemove where
  parentId : Int
  id : Int
  isShadow : Bool := false
deriving DecidableEq

/-- One emitted add: parent id, next-sibling id (null = append), and
the serialized node's id (children omitted under skipChild). -/
structure CapAdd where
  parentId : Int
  nextId : Option Int
  nodeId : Int
deriving DecidableEq

/-- The MutationBuffer state (record/mutation.ts:138-189): texts and
attribute cursors keyed by node (attribute payloads are opaque here),
removes, deferred identity-map removals, the moved-edge key set, the
added/moved/dropped sets (insertion-ordered like a JS Set), and the
freeze/lock flags.  `sn` is the id carried by each serialized node and
`map` the identity map, both modelled from the spec (§4.3) since the
record-side Mirror lives outside src/. -/
structure CState where
  sn : List (Nat × Int) := []
  map : List (Int × Nat) := []
  nextSn : Int := 1
  texts : List (Nat × String) := []
  attributes : List (Nat × Nat) := []
  removes : List CRemove := []
  mapRemoves : List Nat := []
  movedMap : List (Int × Int) := []
  addedSet : List Nat := []
  movedSet : List Nat := []
  droppedSet : List Nat := []
  frozen : Bool := false
  locked : Bool := false
deriving DecidableEq

/-- Modelled from the spec (§4.3): getId reads the id the node carries,
-1 when it has none. -/
def getId (st : CState) (r : Nat) : Int := (alook st.sn r).getD (-1)

/-- Modelled from the spec (§4.3): has(id). -/
def mirrorHas (st : CState) (i : Int) : Bool := (ilook st.map i).isSome

/-- isIgnored: the node carries IGNORED_NODE (-2). -/
def isIgnoredC (st : CState) (r : Nat) : Bool := getId st r == -2

/-- Modelled from the spec (§4.1 masking/blocking policy; utils outside
src/): a node is blocked when it or an ancestor carries the block
flag. -/
def isBlockedC (dm : CDom) : Nat → Nat → Bool
  | 0, _ => false
  | fuel + 1, r =>
    match getC dm r with
    | none => false
    | some n =>
      n.blocked ||
        (match n.parent with
         | some p => isBlockedC dm fuel p
         | none => false)

/-- `doc.contains(n)`: the parent chain reaches the document root. -/
def inDoc (dm : CDom) : Nat → Nat → Bool
  | 0, _ => false
  | fuel + 1, r =>
    r == dm.docRef ||
      (match getC dm r with
       | none => false
       | some n =>
         match n.parent with
         | some p => inDoc dm fuel p
         | none => false)

/-- `n.getRootNode()`: the top of the parent chain. -/
def rootOf (dm : CDom) : Nat → Nat → Nat
  | 0, r => r
  | fuel + 1, r =>
    match getC dm r with
    | none => r
    | some n =>
      match n.parent with
      | some p => rootOf dm fuel p
      | none => r

/-- `(n.getRootNode() as ShadowRoot)?.host`. -/
def shadowHostOf (dm : CDom) (r : Nat) : Option Nat :=
  match getC dm (rootOf dm dm.store.length r) with
  | some n => if n.isShadowRootNode then n.host else none
  | none => none

/-- The siblings strictly after `r` under its parent. -/
def sibsAfter (dm : CDom) (r : Nat) : List Nat :=
  match getC dm r with
  | some n =>
    match n.parent with
    | some p =>
      match getC dm p with
      | some pn => suffixAfter pn.children r
      | none => []
    | none => []
  | none => []

/-- The previous sibling of `r`. -/
def prevSibOf (dm : CDom) (r : Nat) : Option Nat :=
  match getC dm r with
  | some n =>
    match n.parent with
    | some p =>
      match getC dm p with
      | some pn => beforeIn pn.children r
      | none => none
    | none => none
  | none => none

/-- The next sibling of `r`. -/
def nextSibOf (dm : CDom) (r : Nat) : Option Nat :=
  match getC dm r with
  | some n =>
    match n.parent with
    | some p =>
      match getC dm p with
      | some pn => afterIn pn.children r
      | none => none
    | none => none
  | none => none

/-- getNextId of emit (record/mutation.ts:285-293): the id of the first
sibling that is not slimDOM-ignored; `none` is JS null (no sibling). -/
def getNextIdC (st : CState) : List Nat → Option Int
  | [] => none
  | s :: rest =>
    let i := getId st s
    if i == -2 then getNextIdC st rest else some i

/-- Modelled from the spec (§6 Serializer; rrweb-snapshot outside
src/): serializeNodeWithId under skipChild — reuse the carried id or
assign a fresh one, register the identity mapping, return the id.
Policy filtering (a null result) is not exercised by the modelled
flows. -/
def serializeCap (st : CState) (r : Nat) : CState × Int :=
  match alook st.sn r with
  | some i => ({ st with map := iset st.map i r }, i)
  | none =>
    let i := st.nextSn
    ({ st with sn := aset st.sn r i, map := iset st.map i r, nextSn := i + 1 }, i)

/-- Insert `c` immediately after the first occurrence of `p`. -/
def insertAfterIn : List Nat → Nat → Nat → List Nat
  | [], _, c => [c]
  | a :: t, p, c => if a = p then a :: c :: t else a :: insertAfterIn t p c

/-- DoubleLinkedList.addNode (record/mutation.ts:68-103): insert after
the previous sibling when it is in the list, else before the next
sibling when it is in the list and not at the head, else at the
head. -/
def addListAdd (dm : CDom) (l : List Nat) (n : Nat) : List Nat :=
  let psIn : Option Nat :=
    match prevSibOf dm n with
    | some p => if l.contains p then some p else none
    | none => none
  match psIn with
  | some p => insertAfterIn l p n
  | none =>
    match nextSibOf dm n with
    | some s =>
      if l.contains s && !(l.head? == some s) then insertListBefore l s n
      else n :: l
    | none => n :: l

/-- pushAdd (record/mutation.ts:294-348): drop nodes detached from the
document (unless hosted by an in-document shadow host), requeue into
the pending list when the parent or next sibling has no id yet, else
serialize (skipChild) and append the add. -/
def pushAdd (dm : CDom) (st : CState) (adds : List CapAdd) (addList : List Nat)
    (n : Nat) : CState × List CapAdd × List Nat :=
  let host := shadowHostOf dm n
  let notInDoc := !inDoc dm dm.store.length n &&
    (match host with
     | some h => !inDoc dm dm.store.length h
     | none => true)
  match getC dm n with
  | none => (st, adds, addList)
  | some nd =>
    match nd.parent with
    | none => (st, adds, addList)
    | some par =>
      if notInDoc then (st, adds, addList)
      else
        let parentId : Int :=
          match getC dm par with
          | some pn =>
            if pn.isShadowRootNode then
              (match host with
               | some h => getId st h
               | none => -1)
            else getId st par
          | none => getId st par
        let nextId := getNextIdC st (sibsAfter dm n)
        if parentId == -1 || nextId == some (-1) then
          (st, adds, addListAdd dm addList n)
        else
          let sr := serializeCap st n
          (sr.1, adds ++ [{ parentId := parentId, nextId := nextId, nodeId := sr.2 }],
            addList)

/-- The resolvability check of the retry loop (record/mutation.ts:
380-402), which reads the raw parentNode id — unlike pushAdd's
shadow-host-aware parent id. -/
def loopResolvable (dm : CDom) (st : CState) (n : Nat) : Bool :=
  let parentId : Int :=
    match getC dm n with
    | some nd =>
      match nd.parent with
      | some p => getId st p
      | none => -1
    | none => -1
  let nextId := getNextIdC st (sibsAfter dm n)
  !(parentId == -1) && !(nextId == some (-1))

/-- The entry the retry loop works on next: the remembered candidate
when it has become resolvable, else the first resolvable entry scanning
from the tail of the pending list (record/mutation.ts:379-404). -/
def loopPick (dm : CDom) (st : CState) (cand : Option Nat) (addList : List Nat) :
    Option Nat :=
  match (match cand with
         | some c => if loopResolvable dm st c then some c else none
         | none => none) with
  | some c => some c
  | none => addList.reverse.find? fun r => loopResolvable dm st r

/-- The pending-add resolution loop (record/mutation.ts:377-419),
fuel-indexed: each iteration serializes the candidate or the first
resolvable entry from the tail and removes it from the list; a full
pass that resolves nothing discards all remaining entries and exits.
`none` means the fuel ran out before the loop exited. -/
def addListLoop (dm : CDom) : Nat → Option Nat → List Nat → CState → List CapAdd →
    Option (CState × List CapAdd)
  | 0, _, addList, st, adds => if addList.isEmpty then some (st, adds) else none
  | fuel + 1, cand, addList, st, adds =>
    if addList.isEmpty then some (st, adds)
    else
      match loopPick dm st cand addList with
      | none => some (st, adds)
      | some nd =>
        let cand' := beforeIn addList nd
        let addList' := addList.erase nd
        let pr := pushAdd dm st adds addList' nd
        addListLoop dm fuel cand' pr.2.2 pr.1 pr.2.1

/-- genAdds (record/mutation.ts:656-682): already-identified nodes go
to the moved set (with a moved edge key when the add target carries an
id), fresh nodes to the added set (cancelling a pending drop); recurse
into children unless the node is blocked. -/
def genAdds (dm : CDom) : Nat → CState → Nat → Option Nat → CState
  | 0, st, _, _ => st
  | fuel + 1, st, n, target? =>
    if (match target? with
        | some t => isBlockedC dm dm.store.length t
        | none => false) then st
    else
      match alook st.sn n with
      | some i =>
        if i == -2 then st
        else
          let st1 := { st with movedSet := addUniq st.movedSet n }
          let st2 :=
            match target? with
            | some t =>
              match alook st1.sn t with
              | some ti =>
                if ti == 0 then st1
                else if st1.movedMap.contains (i, ti) then st1
                else { st1 with movedMap := st1.movedMap ++ [(i, ti)] }
              | none => st1
            | none => st1
          if isBlockedC dm dm.store.length n then st2
          else
            match getC dm n with
            | some nd => nd.children.foldl (fun s c => genAdds dm fuel s c none) st2
            | none => st2
      | none =>
        let st1 :=
          { st with addedSet := addUniq st.addedSet n,
                    droppedSet := st.droppedSet.erase n }
        if isBlockedC dm dm.store.length n then st1
        else
          match getC dm n with
          | some nd => nd.children.foldl (fun s c => genAdds dm fuel s c none) st1
          | none => st1

/-- deepDelete (record/mutation.ts:691-694). -/
def deepDeleteC (dm : CDom) : Nat → List Nat → Nat → List Nat
  | 0, s, n => s.erase n
  | fuel + 1, s, n =>
    let s1 := s.erase n
    match getC dm n with
    | some nd => nd.children.foldl (fun acc c => deepDeleteC dm fuel acc c) s1
    | none => s1

/-- isParentRemoved (record/mutation.ts:696-710). -/
def isParentRemovedC (dm : CDom) (st : CState) (removes : List CRemove) :
    Nat → Nat → Bool
  | 0, _ => false
  | fuel + 1, n =>
    match getC dm n with
    | none => false
    | some nd =>
      match nd.parent with
      | none => false
      | some par =>
        let parentId := getId st par
        (removes.any fun r => r.id == parentId) || isParentRemovedC dm st removes fuel par

/-- isAncestorInSet (record/mutation.ts:712-721). -/
def isAncestorInSetC (dm : CDom) (set : List Nat) : Nat → Nat → Bool
  | 0, _ => false
  | fuel + 1, n =>
    match getC dm n with
    | none => false
    | some nd =>
      match nd.parent with
      | none => false
      | some par => set.contains par || isAncestorInSetC dm set fuel par

/-- Modelled from the spec ("if an ancestor was already removed this
cycle, skip as redundant"; isAncestorRemoved lives in utils outside
src/): true when the node, or an ancestor below the document, has no
identity-map entry any more. -/
def isAncestorRemovedC (dm : CDom) (st : CState) : Nat → Nat → Bool
  | 0, _ => false
  | fuel + 1, r =>
    match getC dm r with
    | none => true
    | some n =>
      if n.isShadowRootNode then false
      else if !(mirrorHas st (getId st r)) then true
      else
        match n.parent with
        | some p => if p == dm.docRef then false else isAncestorRemovedC dm st fuel p
        | none => true

/-- Modelled from the spec (§4.3, §4.1 step 1; implemented outside
src/): removeNodeFromMap drops the node's identity mapping and cascades
to its children. -/
def mapRemoveRec (dm : CDom) : Nat → CState → Nat → CState
  | 0, st, _ => st
  | fuel + 1, st, n =>
    let st1 :=
      match alook st.sn n with
      | some i => { st with map := idel st.map i }
      | none => st
    match getC dm n with
    | some nd => nd.children.foldl (fun s c => mapRemoveRec dm fuel s c) st1
    | none => st1

/-- A childList mutation record (the characterData/attributes cases
populate the text/attribute buffers, which the modelled claims treat
as state). -/
structure CRecord where
  target : Nat
  addedNodes : List Nat := []
  removedNodes : List Nat := []
deriving DecidableEq

/-- The removedNodes handler of the childList case
(record/mutation.ts:608-648). -/
def processRemoved (dm : CDom) (st : CState) (m : CRecord) (n : Nat) : CState :=
  let nodeId := getId st n
  let parentId : Int :=
    match getC dm m.target with
    | some tn =>
      if tn.isShadowRootNode then
        (match tn.host with
         | some h => getId st h
         | none => -1)
      else getId st m.target
    | none => getId st m.target
  if isBlockedC dm dm.store.length m.target || isIgnoredC st n then st
  else
    let st1 :=
      if st.addedSet.contains n then
        { st with addedSet := deepDeleteC dm dm.store.length st.addedSet n,
                  droppedSet := addUniq st.droppedSet n }
      else if st.addedSet.contains m.target && nodeId == -1 then st
      else if isAncestorRemovedC dm st dm.store.length m.target then st
      else if st.movedSet.contains n && st.movedMap.contains (nodeId, parentId) then
        { st with movedSet := deepDeleteC dm dm.store.length st.movedSet n }
      else
        { st with removes := st.removes ++
            [{ parentId := parentId, id := nodeId,
               isShadow := (match getC dm m.target with
                            | some tn => tn.isShadowRootNode
                            | none => false) }] }
    { st1 with mapRemoves := st1.mapRemoves ++ [n] }

/-- processMutation, childList case (record/mutation.ts:461-654):
ignored targets are skipped, added nodes run genAdds against the
target, removed nodes run the cancellation/record chain. -/
def processMutation (dm : CDom) (st : CState) (m : CRecord) : CState :=
  if isIgnoredC st m.target then st
  else
    let st1 := m.addedNodes.foldl
      (fun s n => genAdds dm dm.store.length s n (some m.target)) st
    m.removedNodes.foldl (fun s n => processRemoved dm s m n) st1

/-- The composed payload of one emit. -/
structure CapPayload where
  texts : List (Int × String) := []
  attributes : List (Int × Nat) := []
  removes : List CRemove := []
  adds : List CapAdd := []
deriving DecidableEq

def payloadEmpty (p : CapPayload) : Bool :=
  p.texts.isEmpty && p.attributes.isEmpty && p.removes.isEmpty && p.adds.isEmpty

/-- The deferred identity-map removals drained at the top of emit
(record/mutation.ts:278-280). -/
def emitDrain (dm : CDom) (st : CState) : CState :=
  { st.mapRemoves.foldl (fun s n => mapRemoveRec dm dm.store.length s n) st
    with mapRemoves := [] }

/-- The moved-set pass of emit (record/mutation.ts:421-427): skip nodes
whose parent was removed unless that parent itself moved, else
pushAdd. -/
def emitMoved (dm : CDom) (st1 : CState) : CState × List CapAdd × List Nat :=
  st1.movedSet.foldl
    (fun (acc : CState × List CapAdd × List Nat) n =>
      let skip := isParentRemovedC dm acc.1 acc.1.removes dm.store.length n &&
        !(match getC dm n with
          | some nd =>
            match nd.parent with
            | some p => st1.movedSet.contains p
            | none => false
          | none => false)
      if skip then acc else pushAdd dm acc.1 acc.2.1 acc.2.2 n)
    (st1, ([], []))

/-- The added-set pass of emit (record/mutation.ts:429-443): pushAdd
unless an ancestor is dropped or the parent removed, with a moved
ancestor overriding; otherwise the node joins the dropped set. -/
def emitAdded (dm : CDom) (st1 : CState) (mv : CState × List CapAdd × List Nat) :
    CState × List CapAdd × List Nat :=
  st1.addedSet.foldl
    (fun (acc : CState × List CapAdd × List Nat) n =>
      if !(isAncestorInSetC dm acc.1.droppedSet dm.store.length n) &&
         !(isParentRemovedC dm acc.1 acc.1.removes dm.store.length n) then
        pushAdd dm acc.1 acc.2.1 acc.2.2 n
      else if isAncestorInSetC dm acc.1.movedSet dm.store.length n then
        pushAdd dm acc.1 acc.2.1 acc.2.2 n
      else ({ acc.1 with droppedSet := addUniq acc.1.droppedSet n }, acc.2.1, acc.2.2))
    mv

/-- The body of emit past the freeze/lock gate (record/mutation.ts:
278-447): drain the deferred identity-map removals, push the moved set
then the added set, run the pending-add resolution loop, compose the
payload and filter text/attribute entries whose target has left the
identity map.  `none` only when the loop fuel runs out. -/
def emitCore (dm : CDom) (fuel : Nat) (st : CState) : Option (CState × CapPayload) :=
  let st1 := emitDrain dm st
  let ad := emitAdded dm st1 (emitMoved dm st1)
  match addListLoop dm fuel none ad.2.2 ad.1 ad.2.1 with
  | none => none
  | some (st2, adds) =>
    let textsP := (st2.texts.map fun t => ((getId st2 t.1 : Int), t.2)).filter
      fun t => mirrorHas st2 t.1
    let attrsP := (st2.attributes.map fun a => ((getId st2 a.1 : Int), a.2)).filter
      fun a => mirrorHas st2 a.1
    some (st2, { texts := textsP, attributes := attrsP, removes := st2.removes,
                 adds := adds })

/-- emit (record/mutation.ts:270-459): suppressed while frozen or
locked; an empty composed payload is not emitted; otherwise all capture
buffers are cleared and the callback is invoked exactly once with the
payload.  The second component lists the callback invocations, the
third the log output — emit contains no logging at all. -/
def captureEmit (dm : CDom) (fuel : Nat) (st : CState) :
    Option (CState × List CapPayload × List String) :=
  if st.frozen || st.locked then some (st, [], [])
  else
    match emitCore dm fuel st with
    | none => none
    | some (st1, p) =>
      if payloadEmpty p then some (st1, [], [])
      else
        some ({ st1 with texts := [], attributes := [], removes := [],
                         addedSet := [], movedSet := [], droppedSet := [],
                         movedMap := [] },
          [p], [])

/-- processMutations (record/mutation.ts:265-268): classify every
record, then attempt one emit. -/
def processMutations (dm : CDom) (fuel : Nat) (st : CState) (ms : List CRecord) :
    Option (CState × List CapPayload × List String) :=
  captureEmit dm fuel (ms.foldl (fun s m => processMutation dm s m) st)

/-- The subtree of `r` in traversal order (node before children). -/
def subtreeRefs (dm : CDom) : Nat → Nat → List Nat
  | 0, r => [r]
  | fuel + 1, r =>
    r :: (match getC dm r with
          | some nd => nd.children.flatMap fun c => subtreeRefs dm fuel c
          | none => [])

/-- No shadow roots anywhere in the document. -/
def noShadow (dm : CDom) : Bool :=
  dm.store.all fun e => !e.2.isShadowRootNode && e.2.host == none

/-- No node carries the block flag. -/
def noBlocked (dm : CDom) : Bool :=
  dm.store.all fun e => !e.2.blocked

/-- The buffer fields genAdds never touches: everything except the
added/moved/dropped sets and the moved edge keys. -/
abbrev coreEq (a b : CState) : Prop :=
  a.sn = b.sn ∧ a.map = b.map ∧ a.nextSn = b.nextSn ∧ a.texts = b.texts ∧
  a.attributes = b.attributes ∧ a.removes = b.removes ∧ a.mapRemoves = b.mapRemoves ∧
  a.frozen = b.frozen ∧ a.locked = b.locked

/-- What genAdds guarantees of its result `r` relative to the incoming
state `st`: the core is untouched, the added/moved sets grow only by
nodes of the processed subtree, and the added set never shrinks. -/
abbrev gaOK (dm : CDom) (fuel : Nat) (st : CState) (n : Nat) (r : CState) : Prop :=
  coreEq r st ∧
  (∀ y ∈ r.addedSet, y ∈ st.addedSet ∨ y ∈ subtreeRefs dm fuel n) ∧
  (∀ y ∈ r.movedSet, y ∈ st.movedSet ∨ y ∈ subtreeRefs dm fuel n) ∧
  (∀ y ∈ st.addedSet, y ∈ r.addedSet)

/-- What the deferred-removal drain guarantees of its result `r`
relative to `st`: identity-map keys are only ever deleted, and every
other field is untouched. -/
abbrev mrOK (st r : CState) : Prop :=
  (∀ i, ilook st.map i = none → ilook r.map i = none) ∧
  r.sn = st.sn ∧ r.nextSn = st.nextSn ∧ r.texts = st.texts ∧
  r.attributes = st.attributes ∧ r.removes = st.removes ∧
  r.mapRemoves = st.mapRemoves ∧ r.movedMap = st.movedMap ∧
  r.addedSet = st.addedSet ∧ r.movedSet = st.movedSet ∧
  r.droppedSet = st.droppedSet ∧ r.frozen = st.frozen ∧ r.locked = st.locked

end Capture

/-! ## Concrete scenarios -/

namespace Scenarios
open Replay

/-- C5: a replay tree containing only root node 1. -/
def c5doc : RNode := { ty := NTy.document, sn := some 1 }

def c5st : RState := { store := [(0, c5doc)], mir := [(1, 0)], freshRef := 5, docRef := 0 }

/-- C5: the add mutation `{parentId:1,nextId:-1,node:{id:10,tag:"div"}}`. -/
def c5add : AddM :=
  { parentId := 1, nextId := some (-1),
    node := { id := 10, ty := NTy.element, tag := "div" } }

/-- C5: the delta `{adds:[{parentId:1,nextId:-1,node:{id:10,tag:"div"}}]}`. -/
def c5delta : MutData := { adds := [c5add] }

def c5run : RState × List REv × Option HostErr := applyMutation {} 4 c5st c5delta false

/-- C5 variant: the same add with `nextId:null` (the non-legacy form). -/
def c5deltaNull : MutData :=
  { adds := [{ parentId := 1, nextId := none,
               node := { id := 10, ty := NTy.element, tag := "div" } }] }

def c5runNull : RState × List REv × Option HostErr := applyMutation {} 4 c5st c5deltaNull false

/-- C1: a document (id 1) whose only child is a stale html element
(id 2); the delta adds a replacement html element (id 3) directly under
the document with no sibling hints and no removes — the situation the
stale-document cleanup in appendNode exists for. -/
def c1html1 : RNode := { ty := NTy.element, tag := "html", sn := some 2 }

def c1doc : RNode := { ty := NTy.document, sn := some 1, children := [1] }

def c1st : RState :=
  { store := [(0, c1doc), (1, c1html1)], mir := [(1, 0), (2, 1)], freshRef := 5, docRef := 0 }

def c1delta : MutData :=
  { adds := [{ parentId := 1, node := { id := 3, ty := NTy.element, tag := "html" } }] }

/-- C1: virtualized application followed by the Flush boundary. -/
def c1virt : RState := flushRun (applyMutation {} 4 c1st c1delta true).1

/-- C1: direct application (no virtualization), Flush is a no-op. -/
def c1direct : RState := flushRun (applyMutation {} 4 c1st c1delta false).1

/-- C8/C9: a document with three registered element children. -/
def exDoc : RNode := { ty := NTy.document, sn := some 1, children := [1, 2, 3] }

def exEl (i : Nat) : RNode := { ty := NTy.element, tag := "div", sn := some i }

def exSt : RState :=
  { store := [(0, exDoc), (1, exEl 2), (2, exEl 3), (3, exEl 4)],
    mir := [(1, 0), (2, 1), (3, 2), (4, 3)], freshRef := 9, docRef := 0 }

/-- C8: a delta removing id 7 (with parent 0). -/
def c8d : MutData := { removes := [{ parentId := 0, id := 7 }] }

/-- C8: remove of unknown id 8 whose parentId 7 the delta also removes. -/
def c8mr : RemoveM := { parentId := 7, id := 8 }

/-- C8: text mutation for unknown id 9 with no matching remove. -/
def c8mt : TextM := { id := 9, value := "x" }

/-- C8: attribute mutation for unknown id 7, which the delta removes. -/
def c8ma : AttrM := { id := 7, attributes := [] }

/-- C9: host faults — a DOMException detaching ref 1, a non-DOM error
detaching ref 2, a non-DOM error setting href on ref 3. -/
def c9env : HostEnv :=
  { removeChildErr := fun p c =>
      if p == 0 && c == 1 then some HostErr.domEx
      else if p == 0 && c == 2 then some (HostErr.other 5)
      else none,
    setAttrErr := fun t nm =>
      if t == 3 && nm == "href" then some (HostErr.other 7) else none }

/-- C9: the remove whose detach the host rejects with a DOMException. -/
def c9mr1 : RemoveM := { parentId := 1, id := 2 }

/-- C9: the remove whose detach the host rejects with a non-DOM error. -/
def c9mr2 : RemoveM := { parentId := 1, id := 3 }

/-- C9: the attribute mutation whose setAttribute the host rejects. -/
def c9ma : AttrM := { id := 4, attributes := [("href", AttrV.str "x")] }

def c9d : MutData := { removes := [c9mr2], attributes := [c9ma] }

/-- C9: a delta whose only fallible operation is the rejected
setAttribute. -/
def c9dAttr : MutData := { attributes := [c9ma] }

/-- C3: the final DOM after relocating node 3 (id 3) from parent A
(ref 1, id 2) to parent B (ref 2, id 4) under the document (ref 0,
id 1). -/
def c3dom : Capture.CDom :=
  { store := [
      (0, { children := [1, 2] }),
      (1, { children := [], parent := some 0 }),
      (2, { children := [3], parent := some 0 }),
      (3, { children := [], parent := some 2 })],
    docRef := 0 }

def c3st : Capture.CState :=
  { sn := [(0, 1), (1, 2), (2, 4), (3, 3)],
    map := [(1, 0), (2, 1), (4, 2), (3, 3)], nextSn := 5 }

/-- C3: the two records the relocation produces, in DOM order — the
removal from A precedes the insertion into B. -/
def c3recs : List Capture.CRecord :=
  [{ target := 1, removedNodes := [3] }, { target := 2, addedNodes := [3] }]

def c3run : Option (Capture.CState × List Capture.CapPayload × List String) :=
  Capture.processMutations c3dom 4 c3st c3recs

/-- C4 counterexample: fresh node (ref 2, never identified) added under
the document, an identified node m (ref 3, id 3) moved into it from its
old parent O (ref 1, id 2), then the fresh node removed — the final DOM
has ref 2 detached with m still inside. -/
def c4dom : Capture.CDom :=
  { store := [
      (0, { children := [1] }),
      (1, { children := [], parent := some 0 }),
      (2, { children := [3], parent := none }),
      (3, { children := [], parent := some 2 })],
    docRef := 0 }

def c4st : Capture.CState :=
  { sn := [(0, 1), (1, 2), (3, 3)], map := [(1, 0), (2, 1), (3, 3)], nextSn := 4 }

def c4recs : List Capture.CRecord :=
  [{ target := 0, addedNodes := [2] },
   { target := 1, removedNodes := [3] },
   { target := 2, addedNodes := [3] },
   { target := 0, removedNodes := [2] }]

def c4run : Option (Capture.CState × List Capture.CapPayload × List String) :=
  Capture.processMutations c4dom 4 c4st c4recs

/-- C7 counterexample: a node (ref 2) added under an in-document parent
(ref 1) that never had an identity — pushAdd requeues it and a full
no-progress pass discards it. -/
def c7dom : Capture.CDom :=
  { store := [
      (0, { children := [1] }),
      (1, { children := [2], parent := some 0 }),
      (2, { children := [], parent := some 1 })],
    docRef := 0 }

def c7st : Capture.CState :=
  { sn := [(0, 1)], map := [(1, 0)], nextSn := 2, addedSet := [2] }

def c7run : Option (Capture.CState × List Capture.CapPayload × List String) :=
  Capture.captureEmit c7dom 3 c7st

/-- C6: the buffer state after processing the C3 relocation records —
pending content guaranteeing a non-empty payload. -/
def c6stFull : Capture.CState :=
  Scenarios.c3recs.foldl (fun s m => Capture.processMutation c3dom s m) c3st

/-- C6: the composed (state, payload) of the non-empty emit. -/
def c6coreF : Capture.CState × Capture.CapPayload :=
  (Capture.emitCore c3dom 4 c6stFull).getD ({}, {})

/-- C6: the composed (state, payload) of the empty emit (no pending
buffers). -/
def c6coreE : Capture.CState × Capture.CapPayload :=
  (Capture.emitCore c3dom 4 c3st).getD ({}, {})

end Scenarios

end Rrweb

example :
    ((Rrweb.Replay.getN Rrweb.Scenarios.c5run.1.store 0).map Rrweb.Replay.RNode.children)
      = some [] := by decide

example : Rrweb.alook Rrweb.Scenarios.c5run.1.mir 10 = some 5 := by decide

example : Rrweb.alook Rrweb.Scenarios.c5run.1.legacyRetry 10 =
    some (5, Rrweb.Scenarios.c5add) := by decide

example :
    ((Rrweb.Replay.getN Rrweb.Scenarios.c5runNull.1.store 0).map Rrweb.Replay.RNode.children)
      = some [5] := by decide

example :
    ((Rrweb.Replay.getN Rrweb.Scenarios.c1virt.store 0).map Rrweb.Replay.RNode.children)
      = some [1, 6] := by decide

example :
    ((Rrweb.Replay.getN Rrweb.Scenarios.c1direct.store 0).map Rrweb.Replay.RNode.children)
      = some [5] := by decide

/-! ## Theorems -/

namespace Rrweb

/-- Auxiliary: a list of equal phases is sorted. -/
theorem sorted_of_all_eq {l : List Nat} {c : Nat} (h : ∀ p ∈ l, p = c) :
    l.Sorted (· ≤ ·) := by
  induction l with
  | nil => simp
  | cons a t ih =>
    rw [List.sorted_cons]
    refine ⟨?_, ih fun p hp => h p (List.mem_cons_of_mem a hp)⟩
    intro b hb
    rw [h a (List.mem_cons_self a t), h b (List.mem_cons_of_mem a hb)]

/-- Auxiliary: phases extracted from removes-pass events are all 0. -/
theorem phases_of_rem (l : List Replay.RemEv) :
    ∀ p ∈ (l.map Replay.REv.rem).filterMap Replay.phaseOf, p = 0 := by
  intro p hp
  rw [List.filterMap_map] at hp
  rcases List.mem_filterMap.mp hp with ⟨e, _, he⟩
  cases e <;> simp [Replay.phaseOf] at he <;> omega

/-- Auxiliary: phases extracted from adds-pass events are all 1. -/
theorem phases_of_add (l : List Replay.AddEv) :
    ∀ p ∈ (l.map Replay.REv.add).filterMap Replay.phaseOf, p = 1 := by
  intro p hp
  rw [List.filterMap_map] at hp
  rcases List.mem_filterMap.mp hp with ⟨e, _, he⟩
  cases e <;> simp [Replay.phaseOf] at he <;> omega

/-- Auxiliary: phases extracted from texts-pass events are all 2. -/
theorem phases_of_txt (l : List Replay.TextEv) :
    ∀ p ∈ (l.map Replay.REv.txt).filterMap Replay.phaseOf, p = 2 := by
  intro p hp
  rw [List.filterMap_map] at hp
  rcases List.mem_filterMap.mp hp with ⟨e, _, he⟩
  cases e <;> simp [Replay.phaseOf] at he <;> omega

/-- Auxiliary: phases extracted from attributes-pass events are all 3. -/
theorem phases_of_attr (l : List Replay.AttrEv) :
    ∀ p ∈ (l.map Replay.REv.attr).filterMap Replay.phaseOf, p = 3 := by
  intro p hp
  rw [List.filterMap_map] at hp
  rcases List.mem_filterMap.mp hp with ⟨e, _, he⟩
  cases e <;> simp [Replay.phaseOf] at he <;> omega

/-- Auxiliary: a concatenation of phase-0/1/2/3 blocks is sorted. -/
theorem sorted_concat_phases {A B C D : List Nat}
    (hA : ∀ p ∈ A, p = 0) (hB : ∀ p ∈ B, p = 1)
    (hC : ∀ p ∈ C, p = 2) (hD : ∀ p ∈ D, p = 3) :
    (A ++ (B ++ (C ++ D))).Sorted (· ≤ ·) := by
  refine List.pairwise_append.mpr ⟨sorted_of_all_eq hA, ?_, ?_⟩
  · refine List.pairwise_append.mpr ⟨sorted_of_all_eq hB, ?_, ?_⟩
    · refine List.pairwise_append.mpr ⟨sorted_of_all_eq hC, sorted_of_all_eq hD, ?_⟩
      intro a ha b hb
      rw [hC a ha, hD b hb]
      omega
    · intro a ha b hb
      rcases List.mem_append.mp hb with h | h
      · rw [hB a ha, hC b h]; omega
      · rw [hB a ha, hD b h]; omega
  · intro a ha b hb
    rcases List.mem_append.mp hb with h | h
    · rw [hA a ha, hB b h]; omega
    rcases List.mem_append.mp h with h' | h'
    · rw [hA a ha, hC b h']; omega
    · rw [hA a ha, hD b h']; omega

/-- C2: For every delta, applyMutation applies all remove mutations
before any add mutation, all add mutations (including the requeued
resolve-tree pass, whose insertions surface as phase-1 events of the
adds pass) before any text mutation, and all text mutations before any
attribute mutation: the phase trace of the application is sorted. -/
theorem c2_intra_delta_phase_order (env : Replay.HostEnv) (fuel : Nat)
    (st : Replay.RState) (d : MutData) (uv : Bool) :
    ((Replay.applyMutation env fuel st d uv).2.1.filterMap Replay.phaseOf).Sorted (· ≤ ·) := by
  unfold Replay.applyMutation
  split
  · exact sorted_of_all_eq (phases_of_rem _)
  · split
    · simp only [List.filterMap_append]
      refine List.pairwise_append.mpr
        ⟨sorted_of_all_eq (phases_of_rem _), sorted_of_all_eq (phases_of_add _), ?_⟩
      intro a ha b hb
      rw [phases_of_rem _ a ha, phases_of_add _ b hb]
      omega
    · split
      · split
        · simp only [List.append_assoc, List.filterMap_append]
          exact sorted_concat_phases (phases_of_rem _) (phases_of_add _) (phases_of_txt _)
            (phases_of_attr _)

/-- C10: Constructing a Replayer with liveMode unset and fewer than 2
events throws 'Replayer need at least 2 events.'; with liveMode set,
the guard accepts any number of events, including zero. -/
theorem c10_replayer_ctor_guard (liveMode : Bool) (n : Nat) :
    (liveMode = false → n < 2 →
      Replay.replayerCtorGuard liveMode n = Except.error "Replayer need at least 2 events.") ∧
    (liveMode = true → Replay.replayerCtorGuard liveMode n = Except.ok ()) := by
  constructor
  · intro hl hn
    subst hl
    simp [Replay.replayerCtorGuard, hn]
  · intro hl
    subst hl
    simp [Replay.replayerCtorGuard]

/-- C10 witness: the guard rejects 1 event without liveMode and accepts
0 events with liveMode. -/
theorem c10_replayer_ctor_guard_witness :
    Replay.replayerCtorGuard false 1 = Except.error "Replayer need at least 2 events." ∧
    Replay.replayerCtorGuard true 0 = Except.ok () :=
  ⟨(c10_replayer_ctor_guard false 1).1 rfl (by decide),
   (c10_replayer_ctor_guard true 0).2 rfl⟩

/-- C5 counterexample: applying the delta
`{adds:[{parentId:1,nextId:-1,node:{id:10,tag:"div"}}]}` to a replay
tree containing only root node 1 does NOT append node 10 as a child of
node 1: the root's child list stays empty, because nextId -1 is the
legacy sibling sentinel that diverts the built node into the legacy
missing-node map before any insertion. -/
theorem c5_counterexample_no_append :
    Rrweb.alook Scenarios.c5run.1.mir 10 = some 5 ∧
    ((Replay.getN Scenarios.c5run.1.store 0).map Replay.RNode.children) = some [] := by
  decide

/-- C5 amended: with nextId:-1 node 10 is built and registered — the
identity map does map it back (getId(node10)==10) — but it is held in
the legacy missing-node retry map and node 1's children are unchanged;
the same delta with nextId:null appends node 10 as the last child of
node 1, again with getId(node10)==10. -/
theorem c5_amended_legacy_sentinel :
    Replay.getIdOf Scenarios.c5run.1.store 5 = 10 ∧
    Rrweb.alook Scenarios.c5run.1.mir 10 = some 5 ∧
    Rrweb.alook Scenarios.c5run.1.legacyRetry 10 = some (5, Scenarios.c5add) ∧
    ((Replay.getN Scenarios.c5run.1.store 0).map Replay.RNode.children) = some [] ∧
    ((Replay.getN Scenarios.c5runNull.1.store 0).map Replay.RNode.children) = some [5] ∧
    Replay.getIdOf Scenarios.c5runNull.1.store 5 = 10 := by
  decide

/-- C1, evaluated at the failing input: a delta that adds a fresh html
element directly under the document while a stale html child exists.
Virtualized application followed by Flush keeps both html elements,
direct application first clears the stale document child — the
stale-document cleanup in appendNode's append fallback compares the
resolved parent against the target document and never fires once the
parent has been replaced by a virtual fragment.  The resulting trees
differ. -/
theorem c1_virtualization_divergence :
    Replay.rootChildTags Scenarios.c1virt = ["html", "html"] ∧
    Replay.rootChildTags Scenarios.c1direct = ["html"] ∧
    Replay.rootChildTags Scenarios.c1virt ≠ Replay.rootChildTags Scenarios.c1direct := by
  refine ⟨by decide, by decide, by decide⟩

/-- Auxiliary: `Array.prototype.find`-style membership as a Bool. -/
theorem any_id_eq_iff (l : List RemoveM) (x : Nat) :
    (l.any fun r => r.id == x) = true ↔ ∃ r ∈ l, r.id = x := by
  simp [List.any_eq_true]

/-- Auxiliary: the negative case of the find. -/
theorem any_id_eq_false {l : List RemoveM} {x : Nat} (h : ¬ ∃ r ∈ l, r.id = x) :
    (l.any fun r => r.id == x) = false := by
  cases hAny : l.any fun r => r.id == x
  · rfl
  · exact absurd ((any_id_eq_iff l x).mp hAny) h

/-- C8: a mutation whose target id is absent from the identity map never
throws: the remove handler is silent when the same delta also removes
the mutation's parentId and reports node-not-found otherwise; the text
and attribute handlers are silent when the same delta removes the
mutation's own id and report node-not-found otherwise.  In every case
the handler returns normally with the state unchanged. -/
theorem c8_missing_target_diagnostics (env : Replay.HostEnv) (st : Replay.RState)
    (d : MutData) (mr : RemoveM) (mt : TextM) (ma : AttrM)
    (hr : Rrweb.alook st.mir mr.id = none)
    (ht : Rrweb.alook st.mir mt.id = none)
    (ha : Rrweb.alook st.mir ma.id = none) :
    ((∃ r ∈ d.removes, r.id = mr.parentId) →
      Replay.applyRemoveM env st d mr = (st, [], none)) ∧
    ((¬ ∃ r ∈ d.removes, r.id = mr.parentId) →
      Replay.applyRemoveM env st d mr = (st, [Replay.RemEv.notFound mr.id], none)) ∧
    ((∃ r ∈ d.removes, r.id = mt.id) → Replay.applyTextM st d mt = (st, [])) ∧
    ((¬ ∃ r ∈ d.removes, r.id = mt.id) →
      Replay.applyTextM st d mt = (st, [Replay.TextEv.notFound mt.id])) ∧
    ((∃ r ∈ d.removes, r.id = ma.id) → Replay.applyAttrM env st d ma = (st, [])) ∧
    ((¬ ∃ r ∈ d.removes, r.id = ma.id) →
      Replay.applyAttrM env st d ma = (st, [Replay.AttrEv.notFound ma.id])) := by
  refine ⟨fun h => ?_, fun h => ?_, fun h => ?_, fun h => ?_, fun h => ?_, fun h => ?_⟩
  · have hb := (any_id_eq_iff d.removes mr.parentId).mpr h
    simp [Replay.applyRemoveM, hr, hb]
  · have hb := any_id_eq_false h
    simp [Replay.applyRemoveM, hr, hb]
  · have hb := (any_id_eq_iff d.removes mt.id).mpr h
    simp [Replay.applyTextM, ht, hb]
  · have hb := any_id_eq_false h
    simp [Replay.applyTextM, ht, hb]
  · have hb := (any_id_eq_iff d.removes ma.id).mpr h
    simp [Replay.applyAttrM, ha, hb]
  · have hb := any_id_eq_false h
    simp [Replay.applyAttrM, ha, hb]

/-- C8 witness: concrete missing-target mutations — a remove whose
parent the delta also removes (silent), a text with no matching remove
(diagnostic), an attribute whose id the delta removes (silent). -/
theorem c8_missing_target_diagnostics_witness :
    Replay.applyRemoveM {} Scenarios.exSt Scenarios.c8d Scenarios.c8mr
      = (Scenarios.exSt, [], none) ∧
    Replay.applyTextM Scenarios.exSt Scenarios.c8d Scenarios.c8mt
      = (Scenarios.exSt, [Replay.TextEv.notFound 9]) ∧
    Replay.applyAttrM {} Scenarios.exSt Scenarios.c8d Scenarios.c8ma
      = (Scenarios.exSt, []) := by
  have h := c8_missing_target_diagnostics {} Scenarios.exSt Scenarios.c8d
    Scenarios.c8mr Scenarios.c8mt Scenarios.c8ma (by decide) (by decide) (by decide)
  exact ⟨h.1 (by decide), h.2.2.2.1 (by decide), h.2.2.2.2.1 (by decide)⟩

/-- C9 amended: during delta application a detach rejected with a
DOMException is logged and swallowed and the remaining removes still
apply; a host rejection of setAttribute is likewise caught and logged
inside the attributes pass; any other host exception aborts
applyMutation and propagates to its caller, applyIncremental's
Mutation case, which catches and logs it rather than letting it escape
further. -/
theorem c9_amended_exception_handling (env : Replay.HostEnv) (st : Replay.RState)
    (d : MutData) (mr1 mr2 : RemoveM) (ms1 : List RemoveM) (ma : AttrM)
    (t1 p1 t2 p2 tA k j : Nat) (nameA vA : String) (fuel : Nat) (uv : Bool)
    (hfrag : st.fragMap = [])
    (h11 : Rrweb.alook st.mir mr1.id = some t1)
    (h12 : Rrweb.alook st.mir mr1.parentId = some p1)
    (he1 : env.removeChildErr p1 t1 = some Replay.HostErr.domEx)
    (h21 : Rrweb.alook st.mir mr2.id = some t2)
    (h22 : Rrweb.alook st.mir mr2.parentId = some p2)
    (he2 : env.removeChildErr p2 t2 = some (Replay.HostErr.other k))
    (hd : d.removes = mr2 :: ms1)
    (hma : Rrweb.alook st.mir ma.id = some tA)
    (hattrs : ma.attributes = [(nameA, AttrV.str vA)])
    (heA : env.setAttrErr tA nameA = some (Replay.HostErr.other j)) :
    (Replay.applyRemoveM env st d mr1).2 = ([Replay.RemEv.removeFailedWarn], none) ∧
    (∀ ms2 : List RemoveM, (Replay.applyRemoves env d (mr1 :: ms2) st).2.1 =
      Replay.RemEv.removeFailedWarn ::
        (Replay.applyRemoves env d ms2 (Replay.applyRemoveM env st d mr1).1).2.1) ∧
    (Replay.applyRemoveM env st d mr2).2 = ([], some (Replay.HostErr.other k)) ∧
    (Replay.applyMutation env fuel st d uv).2.2 = some (Replay.HostErr.other k) ∧
    ((Replay.applyIncrementalMutation env fuel st d uv).2 =
      (Replay.applyMutation env fuel st d uv).2.1.map Replay.IncEv.fromMutation
        ++ [Replay.IncEv.exceptionWarn]) ∧
    Replay.applyAttrM env st d ma
      = (st, [Replay.AttrEv.setAttrWarn, Replay.AttrEv.applied ma.id]) := by
  have hM1 : (Replay.applyRemoveM env st d mr1).2
      = ([Replay.RemEv.removeFailedWarn], none) := by
    rcases hg : Replay.getN st.store p1 with _ | pn <;>
      simp [Replay.applyRemoveM, h11, h12, hfrag, he1, Replay.removeChildRes,
        Rrweb.alook, hg]
  have hM3 : (Replay.applyRemoveM env st d mr2).2
      = ([], some (Replay.HostErr.other k)) := by
    rcases hg : Replay.getN st.store p2 with _ | pn <;>
      simp [Replay.applyRemoveM, h21, h22, hfrag, he2, Replay.removeChildRes,
        Rrweb.alook, hg]
  have h4 : (Replay.applyMutation env fuel st d uv).2.2
      = some (Replay.HostErr.other k) := by
    rcases hT2 : Replay.applyRemoveM env st d mr2 with ⟨stz, evz, errz⟩
    rw [hT2] at hM3
    simp only [Prod.mk.injEq] at hM3
    unfold Replay.applyMutation
    rw [hd]
    simp [Replay.applyRemoves, hT2, hM3.1, hM3.2]
  refine ⟨hM1, ?_, hM3, h4, ?_, ?_⟩
  · intro ms2
    rcases hT1 : Replay.applyRemoveM env st d mr1 with ⟨stx, evx, errx⟩
    rw [hT1] at hM1
    simp only [Prod.mk.injEq] at hM1
    rcases hRest : Replay.applyRemoves env d ms2 stx with ⟨sty, evy, erry⟩
    simp [Replay.applyRemoves, hT1, hM1.1, hM1.2, hRest]
  · rcases hAM : Replay.applyMutation env fuel st d uv with ⟨sta, eva, erra⟩
    rw [hAM] at h4
    simp only [] at h4
    subst h4
    simp [Replay.applyIncrementalMutation, hAM]
  · simp [Replay.applyAttrM, hma, hfrag, hattrs, Replay.applyAttrEntry, heA,
      Rrweb.alook, Option.getD]

/-- C9 witness: the amended behavior at a concrete document and fault
environment — DOMException detach swallowed with continuation,
non-DOM detach error propagated out of applyMutation and caught by
applyIncremental, setAttribute rejection caught in place. -/
theorem c9_amended_exception_handling_witness :
    (Replay.applyRemoveM Scenarios.c9env Scenarios.exSt Scenarios.c9d Scenarios.c9mr1).2
      = ([Replay.RemEv.removeFailedWarn], none) ∧
    (Replay.applyRemoveM Scenarios.c9env Scenarios.exSt Scenarios.c9d Scenarios.c9mr2).2
      = ([], some (Replay.HostErr.other 5)) ∧
    (Replay.applyMutation Scenarios.c9env 2 Scenarios.exSt Scenarios.c9d false).2.2
      = some (Replay.HostErr.other 5) ∧
    ((Replay.applyIncrementalMutation Scenarios.c9env 2 Scenarios.exSt Scenarios.c9d false).2 =
      (Replay.applyMutation Scenarios.c9env 2 Scenarios.exSt Scenarios.c9d false).2.1.map
        Replay.IncEv.fromMutation ++ [Replay.IncEv.exceptionWarn]) ∧
    Replay.applyAttrM Scenarios.c9env Scenarios.exSt Scenarios.c9d Scenarios.c9ma
      = (Scenarios.exSt, [Replay.AttrEv.setAttrWarn, Replay.AttrEv.applied 4]) := by
  have h := c9_amended_exception_handling Scenarios.c9env Scenarios.exSt Scenarios.c9d
    Scenarios.c9mr1 Scenarios.c9mr2 [] Scenarios.c9ma 1 0 2 0 3 5 7 "href" "x" 2 false
    rfl rfl rfl rfl rfl rfl rfl rfl rfl rfl rfl
  exact ⟨h.1, h.2.2.1, h.2.2.2.1, h.2.2.2.2.1, h.2.2.2.2.2⟩

/-- C9 counterexample: a host-level non-DOMException raised during
mutation application (the host rejecting setAttribute) does not
propagate to the caller at all: applyMutation returns normally with a
logged warning, because the setAttribute call sits in its own
catch-everything block (replay/index.ts:1801-1833). -/
theorem c9_counterexample_setattr_caught :
    (Replay.applyMutation Scenarios.c9env 2 Scenarios.exSt Scenarios.c9dAttr false).2.2
      = none ∧
    Replay.REv.attr Replay.AttrEv.setAttrWarn ∈
      (Replay.applyMutation Scenarios.c9env 2 Scenarios.exSt Scenarios.c9dAttr false).2.1 := by
  decide

end Rrweb

example :
    (Rrweb.Scenarios.c3run.map fun r => r.2.1) =
      some [{ removes := [{ parentId := 2, id := 3 }],
              adds := [{ parentId := 4, nextId := none, nodeId := 3 }] }] := by decide

example :
    (Rrweb.Scenarios.c4run.map fun r => r.2.1) =
      some [{ removes := [{ parentId := 2, id := 3 }] }] := by decide

example :
    (Rrweb.Scenarios.c7run.map fun r => r.2.1) = some [] ∧
    (Rrweb.Scenarios.c7run.map fun r => r.2.2) = some [] := by decide

namespace Rrweb

/-- C3 counterexample: relocating the already-identified node id 3 from
parent A (id 2) to parent B (id 4) within one uncommitted capture
window emits a delta that DOES contain the remove of that node from A.
The moved edge key stores (node id, new-parent id), so it can only
suppress a later removal from the parent the node moved INTO — the
removal from A was recorded before the addition record was processed. -/
theorem c3_counterexample_remove_present :
    (Scenarios.c3run.map fun r => r.2.1.map fun p =>
      p.removes.contains { parentId := 2, id := 3 }) = some [true] := by
  decide

/-- C3 amended: the relocation emits exactly one add of the node under
B — and also exactly one remove of it from A (the remove+add pair is
how a move is encoded); no text or attribute entries appear. -/
theorem c3_amended_move_emits_one_add_and_one_remove :
    (Scenarios.c3run.map fun r => r.2.1.map fun p => p.adds)
      = some [[{ parentId := 4, nextId := none, nodeId := 3 }]] ∧
    (Scenarios.c3run.map fun r => r.2.1.map fun p => p.removes)
      = some [[{ parentId := 2, id := 3 }]] ∧
    (Scenarios.c3run.map fun r => r.2.1.map fun p => p.texts) = some [[]] ∧
    (Scenarios.c3run.map fun r => r.2.1.map fun p => p.attributes) = some [[]] := by
  decide

/-- C4 counterexample: node ref 2 is added (first record) and removed
(last record) within the same uncommitted window; the identified node
id 3 (ref 3) is a descendant of ref 2 at removal time, and the emitted
delta still contains the remove entry {id 3, parentId 2} recorded when
that node left its original parent — so the delta is not free of
entries for the dropped node's descendants. -/
theorem c4_counterexample_descendant_remove :
    (2 ∈ (Scenarios.c4recs.map fun r => r.addedNodes).flatten) ∧
    (2 ∈ (Scenarios.c4recs.map fun r => r.removedNodes).flatten) ∧
    3 ∈ Capture.subtreeRefs Scenarios.c4dom Scenarios.c4dom.store.length 2 ∧
    Capture.getId Scenarios.c4st 3 = 3 ∧
    (Scenarios.c4run.map fun r => r.2.1.map fun p => p.removes)
      = some [[{ parentId := 2, id := 3 }]] := by
  decide

/-- C6: emit, when not suppressed by freeze/lock: an empty composed
payload is not emitted (the callback is not invoked and emit returns);
otherwise the texts, attributes, removes, addedSet, movedSet,
droppedSet and movedMap buffers are all cleared and the callback is
invoked exactly once with the payload. -/
theorem c6_emit_empty_or_reset (dm : Capture.CDom) (fuel : Nat)
    (st st1 : Capture.CState) (p : Capture.CapPayload)
    (hf : st.frozen = false) (hl : st.locked = false)
    (hcore : Capture.emitCore dm fuel st = some (st1, p)) :
    (Capture.payloadEmpty p = true →
      Capture.captureEmit dm fuel st = some (st1, [], [])) ∧
    (Capture.payloadEmpty p = false →
      ∃ st2, Capture.captureEmit dm fuel st = some (st2, [p], []) ∧
        st2.texts = [] ∧ st2.attributes = [] ∧ st2.removes = [] ∧ st2.addedSet = [] ∧
        st2.movedSet = [] ∧ st2.droppedSet = [] ∧ st2.movedMap = []) := by
  constructor
  · intro he
    simp [Capture.captureEmit, hf, hl, hcore, he]
  · intro he
    refine ⟨{ st1 with texts := [], attributes := [], removes := [],
                       addedSet := [], movedSet := [], droppedSet := [],
                       movedMap := [] },
      ?_, rfl, rfl, rfl, rfl, rfl, rfl, rfl⟩
    simp [Capture.captureEmit, hf, hl, hcore, he]

/-- C6 witness: the empty emit after no mutations, and the resetting
single emission after the C3 relocation records. -/
theorem c6_emit_empty_or_reset_witness :
    Capture.captureEmit Scenarios.c3dom 4 Scenarios.c3st
      = some (Scenarios.c6coreE.1, [], []) ∧
    ∃ st2, Capture.captureEmit Scenarios.c3dom 4 Scenarios.c6stFull
        = some (st2, [Scenarios.c6coreF.2], []) ∧
      st2.texts = [] ∧ st2.attributes = [] ∧ st2.removes = [] ∧ st2.addedSet = [] ∧
      st2.movedSet = [] ∧ st2.droppedSet = [] ∧ st2.movedMap = [] :=
  ⟨(c6_emit_empty_or_reset Scenarios.c3dom 4 Scenarios.c3st Scenarios.c6coreE.1
      Scenarios.c6coreE.2 rfl rfl (by decide)).1 (by decide),
   (c6_emit_empty_or_reset Scenarios.c3dom 4 Scenarios.c6stFull Scenarios.c6coreF.1
      Scenarios.c6coreF.2 rfl rfl (by decide)).2 (by decide)⟩

/-- C7 counterexample: a full no-progress pass of the pending-add
resolution loop discards the remaining entry silently — emit produces
no log output whatsoever (mutation.ts's emit contains no logging), and
no wall-clock check is involved in this loop. -/
theorem c7_counterexample_silent_discard :
    Capture.addListLoop Scenarios.c7dom 3 none [2] Scenarios.c7st []
      = some (Scenarios.c7st, []) ∧
    Scenarios.c7run = some (Scenarios.c7st, [], []) := by
  decide

end Rrweb

namespace Rrweb

/-- Auxiliary: a successful association lookup is a membership. -/
theorem alook_mem {α : Type} : ∀ (l : List (Nat × α)) (k : Nat) (v : α),
    alook l k = some v → (k, v) ∈ l := by
  intro l
  induction l with
  | nil => intro k v h; simp [alook] at h
  | cons a t ih =>
    rcases a with ⟨k', v'⟩
    intro k v h
    rw [alook] at h
    split at h
    · rename_i heq
      injection h with h2
      subst heq
      subst h2
      exact List.mem_cons_self _ _
    · exact List.mem_cons_of_mem _ (ih _ _ h)

/-- Auxiliary: beforeIn returns an element of the list distinct from
the pivot. -/
theorem beforeIn_mem_ne : ∀ (l : List Nat) (x c : Nat),
    beforeIn l x = some c → c ∈ l ∧ c ≠ x := by
  intro l
  induction l with
  | nil => intro x c h; simp [beforeIn] at h
  | cons a t ih =>
    intro x c h
    cases t with
    | nil => simp [beforeIn] at h
    | cons b t2 =>
      rw [beforeIn] at h
      split at h
      · rename_i hcond
        injection h with h2
        subst h2
        exact ⟨List.mem_cons_self _ _, hcond.2⟩
      · have h3 := ih x c h
        exact ⟨List.mem_cons_of_mem _ h3.1, h3.2⟩

/-- Auxiliary: in a shadow-free document every stored node is plain. -/
theorem noShadow_lookup (dm : Capture.CDom) (hns : Capture.noShadow dm = true)
    {p : Nat} {pn : Capture.CNode} (h : Capture.getC dm p = some pn) :
    pn.isShadowRootNode = false ∧ pn.host = none := by
  have hm := alook_mem dm.store p pn h
  have h2 := List.all_eq_true.mp hns _ hm
  simp only [Bool.and_eq_true, Bool.not_eq_true', beq_iff_eq] at h2
  exact h2

/-- Auxiliary: in a shadow-free document, pushAdd never requeues an
entry the retry loop judged resolvable — the loop's raw-parent check
and pushAdd's shadow-host-aware parent id agree. -/
theorem pushAdd_no_requeue (dm : Capture.CDom) (st : Capture.CState)
    (adds : List Capture.CapAdd) (l : List Nat) (n : Nat)
    (hns : Capture.noShadow dm = true)
    (hres : Capture.loopResolvable dm st n = true) :
    (Capture.pushAdd dm st adds l n).2.2 = l := by
  unfold Capture.loopResolvable at hres
  unfold Capture.pushAdd
  rcases hg : Capture.getC dm n with _ | nd
  · simp
  · simp only [hg] at hres
    rcases hp : nd.parent with _ | par
    · simp only [hp] at hres
      simp at hres
    · simp only [hp] at hres
      simp only [Bool.and_eq_true, Bool.not_eq_true'] at hres
      simp only [hg, hp]
      split
      · rfl
      · have hpar : (match Capture.getC dm par with
            | some pn =>
              if pn.isShadowRootNode then
                (match Capture.shadowHostOf dm n with
                 | some h => Capture.getId st h
                 | none => -1)
              else Capture.getId st par
            | none => Capture.getId st par) = Capture.getId st par := by
          rcases hq : Capture.getC dm par with _ | pn
          · rfl
          · have hsf := (noShadow_lookup dm hns hq).1
            simp [hsf]
        rw [hpar, hres.1, hres.2]
        simp

end Rrweb

namespace Rrweb

/-- Auxiliary: whatever the retry loop picks is a resolvable member of
the pending list (given the remembered candidate is a member). -/
theorem loopPick_sound (dm : Capture.CDom) (st : Capture.CState) (cand : Option Nat)
    (l : List Nat) (nd : Nat) (hcand : ∀ c, cand = some c → c ∈ l)
    (h : Capture.loopPick dm st cand l = some nd) :
    nd ∈ l ∧ Capture.loopResolvable dm st nd = true := by
  unfold Capture.loopPick at h
  rcases cand with _ | c
  · simp only [] at h
    exact ⟨List.mem_reverse.mp (List.mem_of_find?_eq_some h), List.find?_some h⟩
  · cases hres : Capture.loopResolvable dm st c
    · simp only [hres, Bool.false_eq_true, if_false] at h
      exact ⟨List.mem_reverse.mp (List.mem_of_find?_eq_some h), List.find?_some h⟩
    · simp only [hres, if_true] at h
      injection h with h2
      subst h2
      exact ⟨hcand _ rfl, hres⟩

/-- Auxiliary: one fuel unit per pending entry (plus one) lets the
resolution loop run to completion in a shadow-free document — each
iteration removes the picked entry and pushAdd never requeues it. -/
theorem addListLoop_fuel_sufficient (dm : Capture.CDom)
    (hns : Capture.noShadow dm = true) :
    ∀ (n : Nat) (l : List Nat), l.length = n →
      ∀ (cand : Option Nat) (st : Capture.CState) (adds : List Capture.CapAdd),
        (∀ c, cand = some c → c ∈ l) →
        Capture.addListLoop dm (n + 1) cand l st adds ≠ none := by
  intro n
  induction n with
  | zero =>
    intro l hl cand st adds _
    have hnil : l = [] := List.eq_nil_of_length_eq_zero hl
    subst hnil
    simp [Capture.addListLoop]
  | succ k ih =>
    intro l hl cand st adds hcand
    have hne : l.isEmpty = false := by
      cases l
      · simp at hl
      · rfl
    unfold Capture.addListLoop
    simp only [hne, Bool.false_eq_true, if_false]
    cases hp : Capture.loopPick dm st cand l with
    | none => simp
    | some nd =>
      obtain ⟨hmem, hres⟩ := loopPick_sound dm st cand l nd hcand hp
      have hpr : (Capture.pushAdd dm st adds (l.erase nd) nd).2.2 = l.erase nd :=
        pushAdd_no_requeue dm st adds (l.erase nd) nd hns hres
      have hlen : (l.erase nd).length = k := by
        have h2 := List.length_erase_of_mem hmem
        omega
      have hcand' : ∀ c, beforeIn l nd = some c → c ∈ l.erase nd := by
        intro c hc
        obtain ⟨hcm, hcne⟩ := beforeIn_mem_ne l nd c hc
        exact (List.mem_erase_of_ne hcne).mpr hcm
      have hih := ih (l.erase nd) hlen (beforeIn l nd)
        (Capture.pushAdd dm st adds (l.erase nd) nd).1
        (Capture.pushAdd dm st adds (l.erase nd) nd).2.1 hcand'
      simpa [hpr] using hih

/-- C7 amended: the pending-add resolution loop of emit always
terminates, and not by any wall-clock bound: in a shadow-free document
one fuel unit per pending entry (plus one) suffices, because every
iteration either serializes the picked entry — removing it from the
pending list — or a full pass that resolves no entry discards all
remaining entries silently (emit produces no log output) and exits. -/
theorem c7_amended_loop_termination (dm : Capture.CDom)
    (hns : Capture.noShadow dm = true) :
    (∀ (l : List Nat) (st : Capture.CState) (adds : List Capture.CapAdd),
      Capture.addListLoop dm (l.length + 1) none l st adds ≠ none) ∧
    (∀ (l : List Nat) (st : Capture.CState) (adds : List Capture.CapAdd) (fuel : Nat),
      (∀ r ∈ l, Capture.loopResolvable dm st r = false) →
      Capture.addListLoop dm (fuel + 1) none l st adds = some (st, adds)) := by
  constructor
  · intro l st adds
    exact addListLoop_fuel_sufficient dm hns l.length l rfl none st adds
      (by intro c hc; simp at hc)
  · intro l st adds fuel hall
    have hfind : (l.reverse.find? fun r => Capture.loopResolvable dm st r) = none := by
      rw [List.find?_eq_none]
      intro x hx
      rw [List.mem_reverse] at hx
      simp [hall x hx]
    cases hE : l.isEmpty
    · unfold Capture.addListLoop
      simp [hE, Capture.loopPick, hfind]
    · unfold Capture.addListLoop
      simp [hE]

/-- C7 witness: the loop at the concrete unresolvable pending entry —
termination within the fuel bound, and the silent full-pass discard. -/
theorem c7_amended_loop_termination_witness :
    Capture.noShadow Scenarios.c7dom = true ∧
    Capture.addListLoop Scenarios.c7dom 2 none [2] Scenarios.c7st [] ≠ none ∧
    Capture.addListLoop Scenarios.c7dom 1 none [2] Scenarios.c7st []
      = some (Scenarios.c7st, []) :=
  ⟨by decide,
   (c7_amended_loop_termination Scenarios.c7dom (by decide)).1 [2] Scenarios.c7st [],
   (c7_amended_loop_termination Scenarios.c7dom (by decide)).2 [2] Scenarios.c7st [] 0
     (by decide)⟩

end Rrweb

namespace Rrweb

/-- Auxiliary: a predicate preserved by every step of a fold, with the
step hypothesis restricted to list members. -/
theorem foldl_pres_mem {α β : Type} (P : α → Prop) (f : α → β → α) :
    ∀ (l : List β), (∀ s c, c ∈ l → P s → P (f s c)) →
      ∀ s, P s → P (l.foldl f s) := by
  intro l
  induction l with
  | nil => intro _ s h; exact h
  | cons a t ih =>
    intro hstep s h
    exact ih (fun s' c hc => hstep s' c (List.mem_cons_of_mem _ hc)) _
      (hstep s a (List.mem_cons_self _ _) h)

/-- Auxiliary: membership in a Set-like insertion. -/
theorem addUniq_mem {l : List Nat} {x y : Nat} :
    y ∈ addUniq l x ↔ y ∈ l ∨ y = x := by
  unfold addUniq
  split
  · rename_i hm
    constructor
    · exact Or.inl
    · rintro (h | rfl)
      · exact h
      · exact hm
  · simp

theorem coreEq_refl (a : Capture.CState) : Capture.coreEq a a :=
  ⟨rfl, rfl, rfl, rfl, rfl, rfl, rfl, rfl, rfl⟩

theorem coreEq_trans {a b c : Capture.CState} (h1 : Capture.coreEq a b)
    (h2 : Capture.coreEq b c) : Capture.coreEq a c := by
  obtain ⟨e1, e2, e3, e4, e5, e6, e7, e8, e9⟩ := h1
  obtain ⟨f1, f2, f3, f4, f5, f6, f7, f8, f9⟩ := h2
  exact ⟨e1.trans f1, e2.trans f2, e3.trans f3, e4.trans f4, e5.trans f5,
    e6.trans f6, e7.trans f7, e8.trans f8, e9.trans f9⟩

/-- Auxiliary: a node is in its own subtree. -/
theorem subtree_self (dm : Capture.CDom) (k n : Nat) :
    n ∈ Capture.subtreeRefs dm k n := by
  cases k <;> simp [Capture.subtreeRefs]

/-- Auxiliary: a child's subtree is inside the parent's subtree at one
more fuel. -/
theorem subtree_child (dm : Capture.CDom) {n : Nat} {nd : Capture.CNode}
    (hg : Capture.getC dm n = some nd) {c : Nat} (hc : c ∈ nd.children)
    {k : Nat} {y : Nat} (hy : y ∈ Capture.subtreeRefs dm k c) :
    y ∈ Capture.subtreeRefs dm (k + 1) n := by
  unfold Capture.subtreeRefs
  simp only [hg]
  exact List.mem_cons_of_mem _ (List.mem_flatMap.mpr ⟨c, hc, hy⟩)

/-- Auxiliary: membership gives a true contains. -/
theorem contains_of_mem : ∀ {l : List Nat} {x : Nat}, x ∈ l → l.contains x = true := by
  intro l x h
  exact List.elem_eq_true_of_mem h

/-- Auxiliary: deleting a key removes it. -/
theorem idel_self {α : Type} : ∀ (l : List (Int × α)) (k : Int),
    ilook (idel l k) k = none := by
  intro l
  induction l with
  | nil => intro k; rfl
  | cons a t ih =>
    intro k
    rcases a with ⟨k2, v⟩
    rw [idel]
    by_cases h : k2 = k
    · rw [if_pos h]
      exact ih k
    · rw [if_neg h, ilook, if_neg h]
      exact ih k

/-- Auxiliary: deletion preserves the absence of any key. -/
theorem idel_absent {α : Type} : ∀ (l : List (Int × α)) (k j : Int),
    ilook l j = none → ilook (idel l k) j = none := by
  intro l
  induction l with
  | nil => intro k j _; rfl
  | cons a t ih =>
    rcases a with ⟨k2, v⟩
    intro k j h
    rw [ilook] at h
    by_cases hj : k2 = j
    · rw [if_pos hj] at h
      exact absurd h (by simp)
    · rw [if_neg hj] at h
      rw [idel]
      by_cases hk : k2 = k
      · rw [if_pos hk]
        exact ih k j h
      · rw [if_neg hk, ilook, if_neg hj]
        exact ih k j h

/-- Auxiliary: in a block-free document the blocked check is always
false. -/
theorem noBlocked_isBlockedC (dm : Capture.CDom)
    (hnb : Capture.noBlocked dm = true) :
    ∀ (fuel : Nat) (r : Nat), Capture.isBlockedC dm fuel r = false := by
  intro fuel
  induction fuel with
  | zero => intro r; rfl
  | succ k ih =>
    intro r
    rcases hgc : Capture.getC dm r with _ | n
    · simp [Capture.isBlockedC, hgc]
    · have hb : n.blocked = false := by
        have hm := alook_mem dm.store r n hgc
        have h2 := List.all_eq_true.mp hnb _ hm
        simpa using h2
      rcases hp : n.parent with _ | p
      · simp [Capture.isBlockedC, hgc, hb, hp]
      · simp [Capture.isBlockedC, hgc, hb, hp, ih p]

/-- Auxiliary: the resolution loop on an empty pending list returns
immediately. -/
theorem addListLoop_nil (dm : Capture.CDom) (fuel : Nat) (st : Capture.CState)
    (adds : List Capture.CapAdd) :
    Capture.addListLoop dm fuel none [] st adds = some (st, adds) := by
  cases fuel <;> rfl

/-- Auxiliary: pushAdd is a no-op on a node detached from the document
(no shadow hosts around). -/
theorem pushAdd_detached (dm : Capture.CDom) (hns : Capture.noShadow dm = true)
    (st : Capture.CState) (adds : List Capture.CapAdd) (l : List Nat) (n : Nat)
    (hdoc : Capture.inDoc dm dm.store.length n = false) :
    Capture.pushAdd dm st adds l n = (st, adds, l) := by
  have hhost : Capture.shadowHostOf dm n = none := by
    unfold Capture.shadowHostOf
    rcases hgc : Capture.getC dm (Capture.rootOf dm dm.store.length n) with _ | m
    · simp
    · have hsf := (noShadow_lookup dm hns hgc).1
      simp [hsf]
  unfold Capture.pushAdd
  rcases hg : Capture.getC dm n with _ | nd
  · simp
  · rcases hp : nd.parent with _ | par
    · simp [hp]
    · simp [hp, hhost, hdoc]

end Rrweb

namespace Rrweb

/-- Auxiliary: genAdds keeps the non-set buffer fields, grows the
added/moved sets only by nodes of the processed subtree, and never
shrinks the added set. -/
theorem genAdds_facts (dm : Capture.CDom) :
    ∀ (fuel : Nat) (st : Capture.CState) (n : Nat) (t : Option Nat),
      Capture.gaOK dm fuel st n (Capture.genAdds dm fuel st n t) := by
  intro fuel
  induction fuel with
  | zero =>
    intro st n t
    exact ⟨coreEq_refl st, fun y hy => Or.inl hy, fun y hy => Or.inl hy,
      fun y hy => hy⟩
  | succ k ih =>
    intro st n t
    have htail : ∀ st2 : Capture.CState, Capture.gaOK dm (k + 1) st n st2 →
        Capture.gaOK dm (k + 1) st n
          (if Capture.isBlockedC dm dm.store.length n then st2
           else
             match Capture.getC dm n with
             | some nd =>
               nd.children.foldl (fun s c => Capture.genAdds dm k s c none) st2
             | none => st2) := by
      intro st2 h2
      by_cases hB : Capture.isBlockedC dm dm.store.length n = true
      · rw [if_pos hB]
        exact h2
      · rw [if_neg hB]
        rcases hgc : Capture.getC dm n with _ | nd
        · exact h2
        · refine foldl_pres_mem (Capture.gaOK dm (k + 1) st n)
            (fun s c => Capture.genAdds dm k s c none) nd.children ?_ st2 h2
          intro s c hc hP
          obtain ⟨pcore, padd, pmv, pmono⟩ := hP
          obtain ⟨icore, iadd, imv, imono⟩ := ih s c none
          refine ⟨coreEq_trans icore pcore, ?_, ?_, fun y hy => imono y (pmono y hy)⟩
          · intro y hy
            rcases iadd y hy with h | h
            · exact padd y h
            · exact Or.inr (subtree_child dm hgc hc h)
          · intro y hy
            rcases imv y hy with h | h
            · exact pmv y h
            · exact Or.inr (subtree_child dm hgc hc h)
    rcases t with _ | tt
    · simp only [Capture.genAdds, Bool.false_eq_true, if_false]
      rcases hsn : alook st.sn n with _ | i
      · simp only [hsn]
        refine htail _ ⟨⟨rfl, rfl, rfl, rfl, rfl, rfl, rfl, rfl, rfl⟩, ?_,
          fun y hy => Or.inl hy, fun y hy => addUniq_mem.mpr (Or.inl hy)⟩
        intro y hy
        rcases addUniq_mem.mp hy with h | h
        · exact Or.inl h
        · rw [h]
          exact Or.inr (subtree_self dm (k + 1) n)
      · simp only [hsn]
        by_cases hi : (i == -2) = true
        · rw [if_pos hi]
          exact ⟨coreEq_refl st, fun y hy => Or.inl hy, fun y hy => Or.inl hy,
            fun y hy => hy⟩
        · rw [if_neg hi]
          refine htail _ ⟨⟨rfl, rfl, rfl, rfl, rfl, rfl, rfl, rfl, rfl⟩,
            fun y hy => Or.inl hy, ?_, fun y hy => hy⟩
          intro y hy
          rcases addUniq_mem.mp hy with h | h
          · exact Or.inl h
          · rw [h]
            exact Or.inr (subtree_self dm (k + 1) n)
    · simp only [Capture.genAdds]
      by_cases hbt : Capture.isBlockedC dm dm.store.length tt = true
      · rw [if_pos hbt]
        exact ⟨coreEq_refl st, fun y hy => Or.inl hy, fun y hy => Or.inl hy,
          fun y hy => hy⟩
      · rw [if_neg hbt]
        rcases hsn : alook st.sn n with _ | i
        · simp only [hsn]
          refine htail _ ⟨⟨rfl, rfl, rfl, rfl, rfl, rfl, rfl, rfl, rfl⟩, ?_,
            fun y hy => Or.inl hy, fun y hy => addUniq_mem.mpr (Or.inl hy)⟩
          intro y hy
          rcases addUniq_mem.mp hy with h | h
          · exact Or.inl h
          · rw [h]
            exact Or.inr (subtree_self dm (k + 1) n)
        · simp only [hsn]
          by_cases hi : (i == -2) = true
          · rw [if_pos hi]
            exact ⟨coreEq_refl st, fun y hy => Or.inl hy, fun y hy => Or.inl hy,
              fun y hy => hy⟩
          · rw [if_neg hi]
            rcases hsnt : alook st.sn tt with _ | ti
            · simp only [hsnt]
              refine htail _ ⟨⟨rfl, rfl, rfl, rfl, rfl, rfl, rfl, rfl, rfl⟩,
                fun y hy => Or.inl hy, ?_, fun y hy => hy⟩
              intro y hy
              rcases addUniq_mem.mp hy with h | h
              · exact Or.inl h
              · rw [h]
                exact Or.inr (subtree_self dm (k + 1) n)
            · simp only [hsnt]
              by_cases h0 : (ti == 0) = true
              · rw [if_pos h0]
                refine htail _ ⟨⟨rfl, rfl, rfl, rfl, rfl, rfl, rfl, rfl, rfl⟩,
                  fun y hy => Or.inl hy, ?_, fun y hy => hy⟩
                intro y hy
                rcases addUniq_mem.mp hy with h | h
                · exact Or.inl h
                · rw [h]
                  exact Or.inr (subtree_self dm (k + 1) n)
              · rw [if_neg h0]
                by_cases hc2 : st.movedMap.contains (i, ti) = true
                · rw [if_pos hc2]
                  refine htail _ ⟨⟨rfl, rfl, rfl, rfl, rfl, rfl, rfl, rfl, rfl⟩,
                    fun y hy => Or.inl hy, ?_, fun y hy => hy⟩
                  intro y hy
                  rcases addUniq_mem.mp hy with h | h
                  · exact Or.inl h
                  · rw [h]
                    exact Or.inr (subtree_self dm (k + 1) n)
                · rw [if_neg hc2]
                  refine htail _ ⟨⟨rfl, rfl, rfl, rfl, rfl, rfl, rfl, rfl, rfl⟩,
                    fun y hy => Or.inl hy, ?_, fun y hy => hy⟩
                  intro y hy
                  rcases addUniq_mem.mp hy with h | h
                  · exact Or.inl h
                  · rw [h]
                    exact Or.inr (subtree_self dm (k + 1) n)

end Rrweb

namespace Rrweb

/-- Auxiliary: a node without a carried id always joins the added set
(blocking only prunes the recursion below it). -/
theorem genAdds_adds_self (dm : Capture.CDom) (k : Nat) (st : Capture.CState)
    (n : Nat) (t : Option Nat) (hsn : alook st.sn n = none)
    (hbt : ∀ tt, t = some tt → Capture.isBlockedC dm dm.store.length tt = false) :
    n ∈ (Capture.genAdds dm (k + 1) st n t).addedSet := by
  have hmem : n ∈ addUniq st.addedSet n := addUniq_mem.mpr (Or.inr rfl)
  have htail : ∀ st1 : Capture.CState, n ∈ st1.addedSet →
      n ∈ (if Capture.isBlockedC dm dm.store.length n then st1
           else
             match Capture.getC dm n with
             | some nd =>
               nd.children.foldl (fun s c => Capture.genAdds dm k s c none) st1
             | none => st1).addedSet := by
    intro st1 h1
    by_cases hB : Capture.isBlockedC dm dm.store.length n = true
    · rw [if_pos hB]
      exact h1
    · rw [if_neg hB]
      rcases hgc : Capture.getC dm n with _ | nd
      · exact h1
      · refine foldl_pres_mem (fun s => n ∈ s.addedSet)
          (fun s c => Capture.genAdds dm k s c none) nd.children ?_ st1 h1
        intro s c _ hP
        exact (genAdds_facts dm k s c none).2.2.2 n hP
  rcases t with _ | tt
  · simp only [Capture.genAdds, Bool.false_eq_true, if_false, hsn]
    exact htail _ hmem
  · have hb := hbt tt rfl
    simp only [Capture.genAdds, hb, Bool.false_eq_true, if_false, hsn]
    exact htail _ hmem

/-- Auxiliary: deepDelete only removes entries. -/
theorem deepDelete_subset (dm : Capture.CDom) :
    ∀ (fuel : Nat) (s : List Nat) (n : Nat) (y : Nat),
      y ∈ Capture.deepDeleteC dm fuel s n → y ∈ s := by
  intro fuel
  induction fuel with
  | zero =>
    intro s n y hy
    exact List.mem_of_mem_erase hy
  | succ k ih =>
    intro s n y hy
    have hfold : ∀ (l : List Nat) (acc : List Nat),
        y ∈ l.foldl (fun a c => Capture.deepDeleteC dm k a c) acc → y ∈ acc := by
      intro l
      induction l with
      | nil => intro acc h; exact h
      | cons a t iht => intro acc h; exact ih _ _ _ (iht _ h)
    rcases hgc : Capture.getC dm n with _ | nd
    · simp only [Capture.deepDeleteC, hgc] at hy
      exact List.mem_of_mem_erase hy
    · simp only [Capture.deepDeleteC, hgc] at hy
      exact List.mem_of_mem_erase (hfold _ _ hy)

theorem mrOK_refl (a : Capture.CState) : Capture.mrOK a a :=
  ⟨fun _ h => h, rfl, rfl, rfl, rfl, rfl, rfl, rfl, rfl, rfl, rfl, rfl, rfl⟩

theorem mrOK_trans {a b c : Capture.CState} (h1 : Capture.mrOK a b)
    (h2 : Capture.mrOK b c) : Capture.mrOK a c := by
  obtain ⟨e0, e1, e2, e3, e4, e5, e6, e7, e8, e9, e10, e11, e12⟩ := h1
  obtain ⟨f0, f1, f2, f3, f4, f5, f6, f7, f8, f9, f10, f11, f12⟩ := h2
  exact ⟨fun i h => f0 i (e0 i h), f1.trans e1, f2.trans e2, f3.trans e3,
    f4.trans e4, f5.trans e5, f6.trans e6, f7.trans e7, f8.trans e8,
    f9.trans e9, f10.trans e10, f11.trans e11, f12.trans e12⟩

/-- Auxiliary: the deferred removal recursion deletes identity-map keys
and touches nothing else. -/
theorem mapRemove_facts (dm : Capture.CDom) :
    ∀ (fuel : Nat) (st : Capture.CState) (n : Nat),
      Capture.mrOK st (Capture.mapRemoveRec dm fuel st n) := by
  intro fuel
  induction fuel with
  | zero => intro st n; exact mrOK_refl st
  | succ k ih =>
    intro st n
    have htail : ∀ st1 : Capture.CState, Capture.mrOK st st1 →
        Capture.mrOK st
          (match Capture.getC dm n with
           | some nd =>
             nd.children.foldl (fun s c => Capture.mapRemoveRec dm k s c) st1
           | none => st1) := by
      intro st1 h1
      rcases hgc : Capture.getC dm n with _ | nd
      · exact h1
      · refine foldl_pres_mem (Capture.mrOK st)
          (fun s c => Capture.mapRemoveRec dm k s c) nd.children ?_ st1 h1
        intro s c _ hP
        exact mrOK_trans hP (ih s c)
    simp only [Capture.mapRemoveRec]
    rcases hsn : alook st.sn n with _ | i
    · simp only [hsn]
      exact htail st (mrOK_refl st)
    · simp only [hsn]
      exact htail _ ⟨fun j h => idel_absent st.map i j h, rfl, rfl, rfl, rfl, rfl,
        rfl, rfl, rfl, rfl, rfl, rfl, rfl⟩

end Rrweb

namespace Rrweb

/-- Auxiliary: draining the deferred removal of `n` deletes the
identity-map key of every node in `n`'s subtree. -/
theorem mapRemove_clear (dm : Capture.CDom) :
    ∀ (fuel : Nat) (st : Capture.CState) (n y : Nat) (i : Int),
      y ∈ Capture.subtreeRefs dm fuel n → alook st.sn y = some i →
      ilook (Capture.mapRemoveRec dm (fuel + 1) st n).map i = none := by
  intro fuel
  induction fuel with
  | zero =>
    intro st n y i hy hsn
    have hyn : y = n := by simpa [Capture.subtreeRefs] using hy
    subst hyn
    have hid : ∀ (l : List Nat) (acc : Capture.CState),
        l.foldl (fun (s : Capture.CState) (_ : Nat) => s) acc = acc := by
      intro l
      induction l with
      | nil => intro acc; rfl
      | cons a t iht => intro acc; exact iht acc
    simp only [Capture.mapRemoveRec, hsn]
    rcases hgc : Capture.getC dm y with _ | nd
    · simp only [hgc]
      exact idel_self st.map i
    · simp only [hgc, hid]
      exact idel_self st.map i
  | succ k ih =>
    intro st n y i hy hsn
    rw [Capture.subtreeRefs] at hy
    rcases List.mem_cons.mp hy with hyn | hyrest
    · subst hyn
      simp only [Capture.mapRemoveRec, hsn]
      have habs : ilook (idel st.map i) i = none := idel_self st.map i
      rcases hgc : Capture.getC dm y with _ | nd
      · simp only [hgc]
        exact habs
      · simp only [hgc]
        refine foldl_pres_mem (fun s => ilook s.map i = none)
          (fun s c => Capture.mapRemoveRec dm (k + 1) s c) nd.children ?_ _ habs
        intro s c _ hP
        exact (mapRemove_facts dm (k + 1) s c).1 i hP
    · rcases hgc : Capture.getC dm n with _ | nd
      · rw [hgc] at hyrest
        simp at hyrest
      · rw [hgc] at hyrest
        obtain ⟨c, hc, hyc⟩ := List.mem_flatMap.mp hyrest
        have hfold : ∀ (l : List Nat) (acc : Capture.CState), acc.sn = st.sn →
            ((∃ c2 ∈ l, y ∈ Capture.subtreeRefs dm k c2) ∨ ilook acc.map i = none) →
            ilook (l.foldl (fun s c2 => Capture.mapRemoveRec dm (k + 1) s c2)
              acc).map i = none := by
          intro l
          induction l with
          | nil =>
            intro acc _ hd
            rcases hd with ⟨c2, hc2, _⟩ | h
            · exact absurd hc2 (List.not_mem_nil c2)
            · exact h
          | cons a t iht =>
            intro acc hsnacc hd
            have hsn2 : (Capture.mapRemoveRec dm (k + 1) acc a).sn = st.sn := by
              rw [(mapRemove_facts dm (k + 1) acc a).2.1, hsnacc]
            rcases hd with ⟨c2, hc2, hyc2⟩ | h
            · rcases List.mem_cons.mp hc2 with heq | hc2t
              · subst heq
                have hcl : ilook (Capture.mapRemoveRec dm (k + 1) acc c2).map i
                    = none := by
                  apply ih acc c2 y i hyc2
                  rw [hsnacc]
                  exact hsn
                exact iht _ hsn2 (Or.inr hcl)
              · exact iht _ hsn2 (Or.inl ⟨c2, hc2t, hyc2⟩)
            · exact iht _ hsn2
                (Or.inr ((mapRemove_facts dm (k + 1) acc a).1 i h))
        simp only [Capture.mapRemoveRec, hgc]
        rcases hsn2 : alook st.sn n with _ | ni
        · simp only [hsn2]
          exact hfold nd.children st rfl (Or.inl ⟨c, hc, hyc⟩)
        · simp only [hsn2]
          exact hfold nd.children _ rfl (Or.inl ⟨c, hc, hyc⟩)

end Rrweb

namespace Rrweb

/-- Auxiliary: draining a single deferred removal. -/
theorem emitDrain_single (dm : Capture.CDom) (st : Capture.CState) (x : Nat)
    (hmr : st.mapRemoves = [x]) :
    Capture.emitDrain dm st =
      { Capture.mapRemoveRec dm dm.store.length st x with mapRemoves := [] } := by
  unfold Capture.emitDrain
  rw [hmr]
  rfl

/-- Auxiliary: the moved-set pass is a no-op when every moved node is
detached from the document. -/
theorem emitMoved_detached (dm : Capture.CDom) (hns : Capture.noShadow dm = true)
    (st1 : Capture.CState)
    (hmv : ∀ y ∈ st1.movedSet, Capture.inDoc dm dm.store.length y = false) :
    Capture.emitMoved dm st1 = (st1, ([], [])) := by
  unfold Capture.emitMoved
  refine foldl_pres_mem
    (fun acc : Capture.CState × List Capture.CapAdd × List Nat =>
      acc = (st1, ([], []))) _ st1.movedSet ?_ _ rfl
  intro acc n hn hP
  have hpush := pushAdd_detached dm hns acc.1 acc.2.1 acc.2.2 n (hmv n hn)
  simp only []
  split
  · exact hP
  · rw [hpush]
    exact hP

/-- Auxiliary: the added-set pass emits no adds and keeps the core
buffers when every added node is detached from the document (only the
dropped set may grow). -/
theorem emitAdded_detached (dm : Capture.CDom) (hns : Capture.noShadow dm = true)
    (st1 : Capture.CState)
    (had : ∀ y ∈ st1.addedSet, Capture.inDoc dm dm.store.length y = false) :
    (Capture.emitAdded dm st1 (st1, ([], []))).2.1 = [] ∧
    (Capture.emitAdded dm st1 (st1, ([], []))).2.2 = [] ∧
    (Capture.emitAdded dm st1 (st1, ([], []))).1.sn = st1.sn ∧
    (Capture.emitAdded dm st1 (st1, ([], []))).1.map = st1.map ∧
    (Capture.emitAdded dm st1 (st1, ([], []))).1.texts = st1.texts ∧
    (Capture.emitAdded dm st1 (st1, ([], []))).1.attributes = st1.attributes ∧
    (Capture.emitAdded dm st1 (st1, ([], []))).1.removes = st1.removes := by
  unfold Capture.emitAdded
  refine foldl_pres_mem
    (fun acc : Capture.CState × List Capture.CapAdd × List Nat =>
      acc.2.1 = [] ∧ acc.2.2 = [] ∧ acc.1.sn = st1.sn ∧ acc.1.map = st1.map ∧
      acc.1.texts = st1.texts ∧ acc.1.attributes = st1.attributes ∧
      acc.1.removes = st1.removes) _ st1.addedSet ?_ _
    ⟨rfl, rfl, rfl, rfl, rfl, rfl, rfl⟩
  intro acc n hn hP
  obtain ⟨e1, e2, e3, e4, e5, e6, e7⟩ := hP
  have hpush := pushAdd_detached dm hns acc.1 acc.2.1 acc.2.2 n (had n hn)
  simp only []
  split
  · rw [hpush]
    exact ⟨e1, e2, e3, e4, e5, e6, e7⟩
  · split
    · rw [hpush]
      exact ⟨e1, e2, e3, e4, e5, e6, e7⟩
    · exact ⟨e1, e2, e3, e4, e5, e6, e7⟩

end Rrweb

namespace Rrweb

/-- Auxiliary: emit's composition when the pending removal is a single
deferred entry and every moved/added node is detached — the payload
carries no adds, and the identity-map deletions of the drain survive to
the composed state. -/
theorem emitCore_all_detached (dm : Capture.CDom) (hns : Capture.noShadow dm = true)
    (fuel : Nat) (st : Capture.CState) (x : Nat)
    (hmr : st.mapRemoves = [x])
    (hmv : ∀ y ∈ st.movedSet, Capture.inDoc dm dm.store.length y = false)
    (had : ∀ y ∈ st.addedSet, Capture.inDoc dm dm.store.length y = false) :
    ∃ stI pay, Capture.emitCore dm fuel st = some (stI, pay) ∧
      pay.adds = [] ∧ pay.removes = stI.removes ∧
      (∀ t ∈ pay.texts, Capture.mirrorHas stI t.1 = true) ∧
      (∀ a ∈ pay.attributes, Capture.mirrorHas stI a.1 = true) ∧
      stI.sn = st.sn ∧ stI.removes = st.removes ∧
      (∀ i : Int, ilook (Capture.mapRemoveRec dm dm.store.length st x).map i = none →
        ilook stI.map i = none) := by
  have hdr := emitDrain_single dm st x hmr
  have hM := mapRemove_facts dm dm.store.length st x
  have h1sn : (Capture.emitDrain dm st).sn = st.sn := by
    rw [hdr]
    exact hM.2.1
  have h1map : (Capture.emitDrain dm st).map =
      (Capture.mapRemoveRec dm dm.store.length st x).map := by
    rw [hdr]
  have h1tex : (Capture.emitDrain dm st).texts = st.texts := by
    rw [hdr]
    exact hM.2.2.2.1
  have h1att : (Capture.emitDrain dm st).attributes = st.attributes := by
    rw [hdr]
    exact hM.2.2.2.2.1
  have h1rem : (Capture.emitDrain dm st).removes = st.removes := by
    rw [hdr]
    exact hM.2.2.2.2.2.1
  have h1ad : (Capture.emitDrain dm st).addedSet = st.addedSet := by
    rw [hdr]
    exact hM.2.2.2.2.2.2.2.2.1
  have h1mv : (Capture.emitDrain dm st).movedSet = st.movedSet := by
    rw [hdr]
    exact hM.2.2.2.2.2.2.2.2.2.1
  have hmv1 : ∀ y ∈ (Capture.emitDrain dm st).movedSet,
      Capture.inDoc dm dm.store.length y = false := by
    rw [h1mv]
    exact hmv
  have had1 : ∀ y ∈ (Capture.emitDrain dm st).addedSet,
      Capture.inDoc dm dm.store.length y = false := by
    rw [h1ad]
    exact had
  have hmvd := emitMoved_detached dm hns (Capture.emitDrain dm st) hmv1
  obtain ⟨e1, e2, e3, e4, e5, e6, e7⟩ :=
    emitAdded_detached dm hns (Capture.emitDrain dm st) had1
  refine ⟨(Capture.emitAdded dm (Capture.emitDrain dm st)
      ((Capture.emitDrain dm st), ([], []))).1,
    { texts := ((Capture.emitAdded dm (Capture.emitDrain dm st)
          ((Capture.emitDrain dm st), ([], []))).1.texts.map fun t =>
          ((Capture.getId (Capture.emitAdded dm (Capture.emitDrain dm st)
            ((Capture.emitDrain dm st), ([], []))).1 t.1 : Int), t.2)).filter
        (fun t => Capture.mirrorHas (Capture.emitAdded dm (Capture.emitDrain dm st)
          ((Capture.emitDrain dm st), ([], []))).1 t.1),
      attributes := ((Capture.emitAdded dm (Capture.emitDrain dm st)
          ((Capture.emitDrain dm st), ([], []))).1.attributes.map fun a =>
          ((Capture.getId (Capture.emitAdded dm (Capture.emitDrain dm st)
            ((Capture.emitDrain dm st), ([], []))).1 a.1 : Int), a.2)).filter
        (fun a => Capture.mirrorHas (Capture.emitAdded dm (Capture.emitDrain dm st)
          ((Capture.emitDrain dm st), ([], []))).1 a.1),
      removes := (Capture.emitAdded dm (Capture.emitDrain dm st)
        ((Capture.emitDrain dm st), ([], []))).1.removes,
      adds := [] },
    ?_, rfl, rfl, ?_, ?_, e3.trans h1sn, e7.trans h1rem, ?_⟩
  · unfold Capture.emitCore
    simp only []
    rw [hmvd, e1, e2, addListLoop_nil]
  · intro t ht
    exact (List.mem_filter.mp ht).2
  · intro a ha
    exact (List.mem_filter.mp ha).2
  · intro i h
    rw [e4, h1map]
    exact h

end Rrweb

namespace Rrweb

/-- C4 amended: a subtree that is added and removed within the same
mutation window is transient — processing the two records against the
final DOM (where the subtree is detached) and emitting produces a
payload with no adds and no removes at all, and whose text/attribute
entries never name an id of the transient subtree: the identity-map
entries of the whole subtree are dropped by the deferred removal drain,
and the payload filter keeps only targets still in the identity map. -/
theorem c4_amended_transient_subtree (dm : Capture.CDom) (x P : Nat)
    (sn0 : List (Nat × Int)) (map0 : List (Int × Nat)) (k0 : Int)
    (ts : List (Nat × String)) (ats : List (Nat × Nat)) (fuel : Nat)
    (hlen : 0 < dm.store.length)
    (hnb : Capture.noBlocked dm = true)
    (hns : Capture.noShadow dm = true)
    (hx : alook sn0 x = none)
    (hdet : ∀ y ∈ Capture.subtreeRefs dm dm.store.length x,
      Capture.inDoc dm dm.store.length y = false)
    (hstab : Capture.subtreeRefs dm dm.store.length x =
      Capture.subtreeRefs dm (dm.store.length - 1) x)
    (hP : alook sn0 P ≠ some (-2))
    (hneg : ilook map0 (-1) = none) :
    ∃ stOut outs,
      Capture.processMutations dm fuel
        { sn := sn0, map := map0, nextSn := k0, texts := ts, attributes := ats }
        [{ target := P, addedNodes := [x] }, { target := P, removedNodes := [x] }]
        = some (stOut, outs, []) ∧
      ∀ p ∈ outs, p.adds = [] ∧ p.removes = [] ∧
        (∀ t ∈ p.texts, ∀ y ∈ Capture.subtreeRefs dm dm.store.length x,
          t.1 ≠ (alook sn0 y).getD (-1)) ∧
        (∀ a ∈ p.attributes, ∀ y ∈ Capture.subtreeRefs dm dm.store.length x,
          a.1 ≠ (alook sn0 y).getD (-1)) := by
  obtain ⟨k, hk⟩ : ∃ k, dm.store.length = k + 1 := ⟨dm.store.length - 1, by omega⟩
  have hstab2 : Capture.subtreeRefs dm (k + 1) x = Capture.subtreeRefs dm k x := by
    rw [hk] at hstab
    simpa using hstab
  generalize hst0 :
    ({ sn := sn0, map := map0, nextSn := k0, texts := ts,
       attributes := ats } : Capture.CState) = st0
  have hs0sn : st0.sn = sn0 := by rw [← hst0]
  have hs0map : st0.map = map0 := by rw [← hst0]
  have hs0tex : st0.texts = ts := by rw [← hst0]
  have hs0att : st0.attributes = ats := by rw [← hst0]
  have hs0add : st0.addedSet = [] := by rw [← hst0]
  have hs0mv : st0.movedSet = [] := by rw [← hst0]
  have hs0rem : st0.removes = [] := by rw [← hst0]
  have hs0mrm : st0.mapRemoves = [] := by rw [← hst0]
  have hs0fr : st0.frozen = false := by rw [← hst0]
  have hs0lk : st0.locked = false := by rw [← hst0]
  have higP : ∀ s : Capture.CState, s.sn = sn0 → Capture.isIgnoredC s P = false := by
    intro s hs
    unfold Capture.isIgnoredC Capture.getId
    rw [hs]
    rcases hp2 : alook sn0 P with _ | ip
    · decide
    · have hne : ip ≠ -2 := fun h => hP (h ▸ hp2)
      simp only [hp2, Option.getD_some]
      exact beq_eq_false_iff_ne.mpr hne
  obtain ⟨hcore1, hadd1, hmv1, hmono1⟩ :=
    genAdds_facts dm dm.store.length st0 x (some P)
  obtain ⟨h1sn, h1map, h1next, h1tex, h1att, h1rem, h1mrm, h1fr, h1lk⟩ := hcore1
  have hxadd : x ∈ (Capture.genAdds dm dm.store.length st0 x (some P)).addedSet := by
    rw [hk]
    refine genAdds_adds_self dm k st0 x (some P) ?_ ?_
    · rw [hs0sn]
      exact hx
    · intro tt htt
      cases htt
      exact noBlocked_isBlockedC dm hnb dm.store.length P
  have hm1 : Capture.processMutation dm st0 { target := P, addedNodes := [x] } =
      Capture.genAdds dm dm.store.length st0 x (some P) := by
    simp only [Capture.processMutation, higP st0 hs0sn, Bool.false_eq_true, if_false,
      List.foldl_cons, List.foldl_nil]
  have hig1 : Capture.isIgnoredC
      (Capture.genAdds dm dm.store.length st0 x (some P)) P = false :=
    higP _ (h1sn.trans hs0sn)
  have hig1x : Capture.isIgnoredC
      (Capture.genAdds dm dm.store.length st0 x (some P)) x = false := by
    unfold Capture.isIgnoredC Capture.getId
    rw [h1sn.trans hs0sn, hx]
    decide
  have hm2 : Capture.processMutation dm
      (Capture.genAdds dm dm.store.length st0 x (some P))
      { target := P, removedNodes := [x] } =
      Capture.processRemoved dm (Capture.genAdds dm dm.store.length st0 x (some P))
        { target := P, removedNodes := [x] } x := by
    simp only [Capture.processMutation, hig1, Bool.false_eq_true, if_false,
      List.foldl_cons, List.foldl_nil]
  have hpr : Capture.processRemoved dm
      (Capture.genAdds dm dm.store.length st0 x (some P))
      { target := P, removedNodes := [x] } x =
      { Capture.genAdds dm dm.store.length st0 x (some P) with
        addedSet := Capture.deepDeleteC dm dm.store.length
          (Capture.genAdds dm dm.store.length st0 x (some P)).addedSet x,
        droppedSet := addUniq
          (Capture.genAdds dm dm.store.length st0 x (some P)).droppedSet x,
        mapRemoves := (Capture.genAdds dm dm.store.length st0 x (some P)).mapRemoves
          ++ [x] } := by
    unfold Capture.processRemoved
    simp only [noBlocked_isBlockedC dm hnb, hig1x, Bool.or_self, Bool.false_eq_true,
      if_false, contains_of_mem hxadd, eq_self_iff_true, if_true]
  obtain ⟨st2, hfold, hmr2, hfr2, hlk2, hsn2, hrem2, hmap2, hmvS, hadS⟩ :
      ∃ st2 : Capture.CState,
        List.foldl (fun s m => Capture.processMutation dm s m) st0
          [{ target := P, addedNodes := [x] },
           { target := P, removedNodes := [x] }] = st2 ∧
        st2.mapRemoves = [x] ∧ st2.frozen = false ∧ st2.locked = false ∧
        st2.sn = sn0 ∧ st2.removes = [] ∧ st2.map = map0 ∧
        (∀ y ∈ st2.movedSet, y ∈ Capture.subtreeRefs dm dm.store.length x) ∧
        (∀ y ∈ st2.addedSet, y ∈ Capture.subtreeRefs dm dm.store.length x) := by
    refine ⟨{ Capture.genAdds dm dm.store.length st0 x (some P) with
        addedSet := Capture.deepDeleteC dm dm.store.length
          (Capture.genAdds dm dm.store.length st0 x (some P)).addedSet x,
        droppedSet := addUniq
          (Capture.genAdds dm dm.store.length st0 x (some P)).droppedSet x,
        mapRemoves := (Capture.genAdds dm dm.store.length st0 x (some P)).mapRemoves
          ++ [x] }, ?_, ?_, ?_, ?_, ?_, ?_, ?_, ?_, ?_⟩
    · simp only [List.foldl_cons, List.foldl_nil, hm1, hm2, hpr]
    · show (Capture.genAdds dm dm.store.length st0 x (some P)).mapRemoves ++ [x] = [x]
      rw [h1mrm, hs0mrm]
      rfl
    · exact h1fr.trans hs0fr
    · exact h1lk.trans hs0lk
    · exact h1sn.trans hs0sn
    · exact h1rem.trans hs0rem
    · exact h1map.trans hs0map
    · intro y hy
      rcases hmv1 y hy with h | h
      · rw [hs0mv] at h
        exact absurd h (List.not_mem_nil y)
      · exact h
    · intro y hy
      have h2 := deepDelete_subset dm dm.store.length _ x y hy
      rcases hadd1 y h2 with h | h
      · rw [hs0add] at h
        exact absurd h (List.not_mem_nil y)
      · exact h
  obtain ⟨stI, pay, hEC, hpadds, hprem, hptex, hpatt, hIsn, hIrem, hIabs⟩ :=
    emitCore_all_detached dm hns fuel st2 x hmr2
      (fun y hy => hdet y (hmvS y hy)) (fun y hy => hdet y (hadS y hy))
  have hclear : ∀ y ∈ Capture.subtreeRefs dm dm.store.length x,
      ilook stI.map ((alook sn0 y).getD (-1)) = none := by
    intro y hy
    rcases hsy : alook sn0 y with _ | iy
    · simp only [Option.getD_none]
      apply hIabs
      apply (mapRemove_facts dm dm.store.length st2 x).1
      rw [hmap2]
      exact hneg
    · simp only [Option.getD_some]
      apply hIabs
      rw [hk] at hy ⊢
      rw [hstab2] at hy
      refine mapRemove_clear dm k st2 x y iy hy ?_
      rw [hsn2]
      exact hsy
  have htexts : ∀ t ∈ pay.texts, ∀ y ∈ Capture.subtreeRefs dm dm.store.length x,
      t.1 ≠ (alook sn0 y).getD (-1) := by
    intro t ht y hy heq
    have hmh := hptex t ht
    rw [heq] at hmh
    unfold Capture.mirrorHas at hmh
    rw [hclear y hy] at hmh
    simp at hmh
  have hattrs : ∀ a ∈ pay.attributes, ∀ y ∈ Capture.subtreeRefs dm dm.store.length x,
      a.1 ≠ (alook sn0 y).getD (-1) := by
    intro a ha y hy heq
    have hmh := hpatt a ha
    rw [heq] at hmh
    unfold Capture.mirrorHas at hmh
    rw [hclear y hy] at hmh
    simp at hmh
  have hprem2 : pay.removes = [] := hprem.trans (hIrem.trans hrem2)
  have hPM : Capture.processMutations dm fuel st0
      [{ target := P, addedNodes := [x] }, { target := P, removedNodes := [x] }] =
      Capture.captureEmit dm fuel st2 := by
    unfold Capture.processMutations
    rw [hfold]
  rw [hPM]
  unfold Capture.captureEmit
  rw [hfr2, hlk2]
  simp only [Bool.or_self, Bool.false_eq_true, if_false]
  rw [hEC]
  simp only []
  by_cases hpe : Capture.payloadEmpty pay = true
  · rw [if_pos hpe]
    exact ⟨stI, [], rfl, fun p hp => absurd hp (List.not_mem_nil p)⟩
  · rw [if_neg hpe]
    refine ⟨_, [pay], rfl, ?_⟩
    intro p hp
    have hp2 : p = pay := List.mem_singleton.mp hp
    subst hp2
    exact ⟨hpadds, hprem2, htexts, hattrs⟩

end Rrweb

namespace Rrweb

/-- C4 amended witness: the transient-subtree guarantee at the concrete
detached subtree {2, 3} of the C4 document, with node 3 identified
(id 3) and pending text/attribute entries naming it. -/
theorem c4_amended_transient_subtree_witness :
    ∃ stOut outs,
      Capture.processMutations Scenarios.c4dom 4
        { sn := [(0, 1), (1, 2), (3, 3)], map := [(1, 0), (2, 1), (3, 3)],
          nextSn := 4, texts := [(1, "hi"), (3, "bye")], attributes := [(3, 5)] }
        [{ target := 0, addedNodes := [2] }, { target := 0, removedNodes := [2] }]
        = some (stOut, outs, []) ∧
      ∀ p ∈ outs, p.adds = [] ∧ p.removes = [] ∧
        (∀ t ∈ p.texts,
          ∀ y ∈ Capture.subtreeRefs Scenarios.c4dom Scenarios.c4dom.store.length 2,
          t.1 ≠ (alook [(0, 1), (1, 2), (3, 3)] y).getD (-1)) ∧
        (∀ a ∈ p.attributes,
          ∀ y ∈ Capture.subtreeRefs Scenarios.c4dom Scenarios.c4dom.store.length 2,
          a.1 ≠ (alook [(0, 1), (1, 2), (3, 3)] y).getD (-1)) :=
  c4_amended_transient_subtree Scenarios.c4dom 2 0
    [(0, 1), (1, 2), (3, 3)] [(1, 0), (2, 1), (3, 3)] 4 [(1, "hi"), (3, "bye")]
    [(3, 5)] 4
    (by decide) (by decide) (by decide) (by decide) (by decide) (by decide)
    (by decide) (by decide)

end Rrweb
